import Mathlib

/-!
Verification development for the `ui-prototyper` text-layout core
(`src/index.ts`).

Modelling conventions:
* A JavaScript string, iterated as `[...text]` by the source, is a list of
  Unicode scalar values: `JStr := List Char`.
* The `wcwidth` npm dependency (timoxley/wcwidth, Markus Kuhn's tables) is
  embedded below: it walks UTF-16 code units (`charCodeAt`) and sums
  per-unit widths, with the default options `nul = 0`, `control = 0`.
* The emoji-correction map (a JS `Map<string, number>`) is an association
  list `CorrTable`; the functions of the source that read the module-level
  `EMOJI_CORRECTIONS` take the table as an explicit parameter.
* JavaScript `String.prototype.repeat` throws a `RangeError` on a negative
  count; the unguarded call sites (`createBox`'s bottom border,
  `createTableSeparator`'s segments, `combineHorizontal`'s gap) are
  modelled with `Option`, `none` being the thrown exception.  Call sites
  guarded by `Math.max(0, _)` or by a branch condition stay total.
-/

namespace UIProto

abbrev JStr := List Char

/-- U+FE0F, the variation selector-16 code point tested by the source. -/
def vs16 : Char := Char.ofNat 0xFE0F

/-- U+20E3, the combining enclosing keycap code point tested by the source. -/
def keycapMark : Char := Char.ofNat 0x20E3

/-! ### The wcwidth base width function (npm dependency) -/

/-- Combining-character ranges of the `wcwidth` npm package
(`combining.js`, Markus Kuhn's table). -/
def combiningRanges : List (Nat × Nat) :=
  [(0x0300, 0x036F), (0x0483, 0x0486), (0x0488, 0x0489),
   (0x0591, 0x05BD), (0x05BF, 0x05BF), (0x05C1, 0x05C2),
   (0x05C4, 0x05C5), (0x05C7, 0x05C7), (0x0600, 0x0603),
   (0x0610, 0x0615), (0x064B, 0x065E), (0x0670, 0x0670),
   (0x06D6, 0x06E4), (0x06E7, 0x06E8), (0x06EA, 0x06ED),
   (0x070F, 0x070F), (0x0711, 0x0711), (0x0730, 0x074A),
   (0x07A6, 0x07B0), (0x07EB, 0x07F3), (0x0901, 0x0902),
   (0x093C, 0x093C), (0x0941, 0x0948), (0x094D, 0x094D),
   (0x0951, 0x0954), (0x0962, 0x0963), (0x0981, 0x0981),
   (0x09BC, 0x09BC), (0x09C1, 0x09C4), (0x09CD, 0x09CD),
   (0x09E2, 0x09E3), (0x0A01, 0x0A02), (0x0A3C, 0x0A3C),
   (0x0A41, 0x0A42), (0x0A47, 0x0A48), (0x0A4B, 0x0A4D),
   (0x0A70, 0x0A71), (0x0A81, 0x0A82), (0x0ABC, 0x0ABC),
   (0x0AC1, 0x0AC5), (0x0AC7, 0x0AC8), (0x0ACD, 0x0ACD),
   (0x0AE2, 0x0AE3), (0x0B01, 0x0B01), (0x0B3C, 0x0B3C),
   (0x0B3F, 0x0B3F), (0x0B41, 0x0B43), (0x0B4D, 0x0B4D),
   (0x0B56, 0x0B56), (0x0B82, 0x0B82), (0x0BC0, 0x0BC0),
   (0x0BCD, 0x0BCD), (0x0C3E, 0x0C40), (0x0C46, 0x0C48),
   (0x0C4A, 0x0C4D), (0x0C55, 0x0C56), (0x0CBC, 0x0CBC),
   (0x0CBF, 0x0CBF), (0x0CC6, 0x0CC6), (0x0CCC, 0x0CCD),
   (0x0CE2, 0x0CE3), (0x0D41, 0x0D43), (0x0D4D, 0x0D4D),
   (0x0DCA, 0x0DCA), (0x0DD2, 0x0DD4), (0x0DD6, 0x0DD6),
   (0x0E31, 0x0E31), (0x0E34, 0x0E3A), (0x0E47, 0x0E4E),
   (0x0EB1, 0x0EB1), (0x0EB4, 0x0EB9), (0x0EBB, 0x0EBC),
   (0x0EC8, 0x0ECD), (0x0F18, 0x0F19), (0x0F35, 0x0F35),
   (0x0F37, 0x0F37), (0x0F39, 0x0F39), (0x0F71, 0x0F7E),
   (0x0F80, 0x0F84), (0x0F86, 0x0F87), (0x0F90, 0x0F97),
   (0x0F99, 0x0FBC), (0x0FC6, 0x0FC6), (0x102D, 0x1030),
   (0x1032, 0x1032), (0x1036, 0x1037), (0x1039, 0x1039),
   (0x1058, 0x1059), (0x1160, 0x11FF), (0x135F, 0x135F),
   (0x1712, 0x1714), (0x1732, 0x1734), (0x1752, 0x1753),
   (0x1772, 0x1773), (0x17B4, 0x17B5), (0x17B7, 0x17BD),
   (0x17C6, 0x17C6), (0x17C9, 0x17D3), (0x17DD, 0x17DD),
   (0x180B, 0x180D), (0x18A9, 0x18A9), (0x1920, 0x1922),
   (0x1927, 0x1928), (0x1932, 0x1932), (0x1939, 0x193B),
   (0x1A17, 0x1A18), (0x1B00, 0x1B03), (0x1B34, 0x1B34),
   (0x1B36, 0x1B3A), (0x1B3C, 0x1B3C), (0x1B42, 0x1B42),
   (0x1B6B, 0x1B73), (0x1DC0, 0x1DCA), (0x1DFE, 0x1DFF),
   (0x200B, 0x200F), (0x202A, 0x202E), (0x2060, 0x2063),
   (0x206A, 0x206F), (0x20D0, 0x20EF), (0x302A, 0x302F),
   (0x3099, 0x309A), (0xA806, 0xA806), (0xA80B, 0xA80B),
   (0xA825, 0xA826), (0xFB1E, 0xFB1E), (0xFE00, 0xFE0F),
   (0xFE20, 0xFE23), (0xFEFF, 0xFEFF), (0xFFF9, 0xFFFB),
   (0x10A01, 0x10A03), (0x10A05, 0x10A06), (0x10A0C, 0x10A0F),
   (0x10A38, 0x10A3A), (0x10A3F, 0x10A3F), (0x1D167, 0x1D169),
   (0x1D173, 0x1D182), (0x1D185, 0x1D18B), (0x1D1AA, 0x1D1AD),
   (0x1D242, 0x1D244), (0xE0001, 0xE0001), (0xE0020, 0xE007F),
   (0xE0100, 0xE01EF)]

/-- Membership in the combining table (the package's binary search over the
sorted range table is extensionally a linear range check). -/
def isCombiningUnit (u : Nat) : Bool :=
  combiningRanges.any (fun p => decide (p.1 ≤ u) && decide (u ≤ p.2))

/-- Wide (two-column) classification of the `wcwidth` npm package. -/
def isWideUnit (u : Nat) : Bool :=
  decide (0x1100 ≤ u) &&
    (decide (u ≤ 0x115F) || decide (u = 0x2329) || decide (u = 0x232A) ||
     (decide (0x2E80 ≤ u) && decide (u ≤ 0xA4CF) && !(decide (u = 0x303F))) ||
     (decide (0xAC00 ≤ u) && decide (u ≤ 0xD7A3)) ||
     (decide (0xF900 ≤ u) && decide (u ≤ 0xFAFF)) ||
     (decide (0xFE10 ≤ u) && decide (u ≤ 0xFE19)) ||
     (decide (0xFE30 ≤ u) && decide (u ≤ 0xFE6F)) ||
     (decide (0xFF00 ≤ u) && decide (u ≤ 0xFF60)) ||
     (decide (0xFFE0 ≤ u) && decide (u ≤ 0xFFE6)) ||
     (decide (0x20000 ≤ u) && decide (u ≤ 0x2FFFD)) ||
     (decide (0x30000 ≤ u) && decide (u ≤ 0x3FFFD)))

/-- Per-code-unit width of the `wcwidth` npm package under its default
options (`nul = 0`, `control = 0`).  Never negative, so the package's
early `-1` return for a negative per-unit width is unreachable. -/
def wcwidthUnit (u : Nat) : Int :=
  if u = 0 then 0
  else if u < 32 ∨ (0x7F ≤ u ∧ u < 0xA0) then 0
  else if isCombiningUnit u then 0
  else if isWideUnit u then 2
  else 1

/-- UTF-16 code units of one Unicode scalar value (JS `charCodeAt` view). -/
def utf16Units (c : Char) : List Nat :=
  if c.toNat < 0x10000 then [c.toNat]
  else [0xD800 + (c.toNat - 0x10000) / 0x400, 0xDC00 + (c.toNat - 0x10000) % 0x400]

/-- The `wcwidth` npm package applied to a string: sum of per-code-unit
widths over the UTF-16 view of the string. -/
def wcswidth (s : JStr) : Int :=
  (((s.map utf16Units).flatten).map wcwidthUnit).sum

/-! ### Correction table -/

/-- A loaded emoji-correction map: exact cluster string to integer delta. -/
abbrev CorrTable := List (JStr × Int)

/-- `Map.get`-style lookup by exact key string. -/
def lookupCorr (tbl : CorrTable) (k : JStr) : Option Int :=
  match tbl with
  | [] => none
  | (k', v) :: rest => if k' = k then some v else lookupCorr rest k

/-- The built-in `DEFAULT_EMOJI_CORRECTIONS` map of `src/index.ts`
(lines 32-81): keycap sequences, variation-selector emoji, symbol glyphs
and one currency sign, each corrected by `+1`. -/
def DEFAULT_EMOJI_CORRECTIONS : CorrTable :=
  [(['0', vs16, keycapMark], 1), (['1', vs16, keycapMark], 1),
   (['2', vs16, keycapMark], 1), (['3', vs16, keycapMark], 1),
   (['4', vs16, keycapMark], 1), (['5', vs16, keycapMark], 1),
   (['6', vs16, keycapMark], 1), (['7', vs16, keycapMark], 1),
   (['8', vs16, keycapMark], 1), (['9', vs16, keycapMark], 1),
   (['#', vs16, keycapMark], 1), (['*', vs16, keycapMark], 1),
   ([Char.ofNat 0x2699, vs16], 1), ([Char.ofNat 0x270F, vs16], 1),
   ([Char.ofNat 0x2712, vs16], 1), ([Char.ofNat 0x2764, vs16], 1),
   ([Char.ofNat 0x2600, vs16], 1), ([Char.ofNat 0x2601, vs16], 1),
   ([Char.ofNat 0x2602, vs16], 1), ([Char.ofNat 0x26A1], 1),
   ([Char.ofNat 0x2744, vs16], 1), ([Char.ofNat 0x2603, vs16], 1),
   ([Char.ofNat 0x2734, vs16], 1), ([Char.ofNat 0x2747, vs16], 1),
   ([Char.ofNat 0x2049, vs16], 1), ([Char.ofNat 0x203C, vs16], 1),
   ([Char.ofNat 0x2B50], 1), ([Char.ofNat 0x26AA], 1),
   ([Char.ofNat 0x26AB], 1), ([Char.ofNat 0x2139, vs16], 1),
   ([Char.ofNat 0x2709, vs16], 1), ([Char.ofNat 0x260E, vs16], 1),
   ([Char.ofNat 0x23F1, vs16], 1), ([Char.ofNat 0x23F2, vs16], 1),
   ([Char.ofNat 0x2328, vs16], 1), ([Char.ofNat 0x25B2], 1),
   ([Char.ofNat 0x25BC], 1), ([Char.ofNat 0x25C0], 1),
   ([Char.ofNat 0x25B6], 1), ([Char.ofNat 0x25B3], 1),
   ([Char.ofNat 0x25BD], 1), ([Char.ofNat 0x20A9], 1)]

/-! ### Visual width model (`getVisualWidth`) -/

/-- Width contribution of a single-code-point cluster: base width plus the
correction if the map has the character, else the base width alone. -/
def singleWidth (tbl : CorrTable) (c : Char) : Int :=
  match lookupCorr tbl [c] with
  | some v => wcswidth [c] + v
  | none => wcswidth [c]

/-- Width contribution of a base + U+FE0F cluster: base width plus the
correction, defaulting to `+1` when the map lacks the cluster. -/
def pairWidth (tbl : CorrTable) (c : Char) : Int :=
  wcswidth [c, vs16] + (lookupCorr tbl [c, vs16]).getD 1

/-- Width contribution of a base + U+FE0F + U+20E3 keycap cluster: base
width plus the correction, defaulting to `+1`. -/
def keycapWidth (tbl : CorrTable) (c : Char) : Int :=
  wcswidth [c, vs16, keycapMark] + (lookupCorr tbl [c, vs16, keycapMark]).getD 1

/-- `getVisualWidth` of `src/index.ts` (lines 146-198): walk the code
points left to right, greedily recognising keycap triples, then
variation-selector pairs, then single code points. -/
def getVisualWidth (tbl : CorrTable) : JStr → Int
  | [] => 0
  | [c] => singleWidth tbl c
  | c :: f :: rest =>
    if f = vs16 then
      match rest with
      | k :: rest2 =>
        if k = keycapMark then keycapWidth tbl c + getVisualWidth tbl rest2
        else pairWidth tbl c + getVisualWidth tbl (k :: rest2)
      | [] => pairWidth tbl c
    else singleWidth tbl c + getVisualWidth tbl (f :: rest)

/-- The grapheme-cluster segmentation performed (implicitly, by its index
arithmetic) by `getVisualWidth` and `truncateByVisualWidth`. -/
def segment : JStr → List JStr
  | [] => []
  | [c] => [[c]]
  | c :: f :: rest =>
    if f = vs16 then
      match rest with
      | k :: rest2 =>
        if k = keycapMark then [c, f, k] :: segment rest2
        else [c, f] :: segment (k :: rest2)
      | [] => [[c, f]]
    else [c] :: segment (f :: rest)

/-- Width of one recognised cluster, by its shape. -/
def clusterWidth (tbl : CorrTable) : JStr → Int
  | [c] => singleWidth tbl c
  | [c, _] => pairWidth tbl c
  | [c, _, _] => keycapWidth tbl c
  | _ => 0

/-! ### Truncation and padding -/

/-- Loop body of `truncateByVisualWidth` (lines 201-254): `cur` is the
accumulated width; a cluster is dropped (and the loop stopped) the moment
including it would exceed `maxWidth`. -/
def truncGo (tbl : CorrTable) (maxWidth : Int) : JStr → Int → JStr
  | [], _ => []
  | [c], cur =>
    if cur + singleWidth tbl c > maxWidth then [] else [c]
  | c :: f :: rest, cur =>
    if f = vs16 then
      match rest with
      | k :: rest2 =>
        if k = keycapMark then
          if cur + keycapWidth tbl c > maxWidth then []
          else c :: f :: k :: truncGo tbl maxWidth rest2 (cur + keycapWidth tbl c)
        else
          if cur + pairWidth tbl c > maxWidth then []
          else c :: f :: truncGo tbl maxWidth (k :: rest2) (cur + pairWidth tbl c)
      | [] =>
        if cur + pairWidth tbl c > maxWidth then [] else [c, f]
    else
      if cur + singleWidth tbl c > maxWidth then []
      else c :: truncGo tbl maxWidth (f :: rest) (cur + singleWidth tbl c)

/-- `truncateByVisualWidth` of `src/index.ts`. -/
def truncateByVisualWidth (tbl : CorrTable) (text : JStr) (maxWidth : Int) : JStr :=
  truncGo tbl maxWidth text 0

/-- Alignment argument of `padText`. -/
inductive Align
  | left
  | right
  | center
deriving DecidableEq

/-- ASCII space run. -/
def spaces (n : Nat) : JStr := List.replicate n ' '

/-- `padText` of `src/index.ts` (lines 257-283).  When the text is wider
than the target it is visually truncated and the remaining deficit is
space-filled (the repeat count there is guarded by `Math.max(0, _)`);
otherwise the deficit is distributed according to the alignment (each
repeat count in those branches is nonnegative because `padding ≥ 0`). -/
def padText (tbl : CorrTable) (text : JStr) (targetWidth : Int) (align : Align) : JStr :=
  let currentWidth := getVisualWidth tbl text
  let padding := targetWidth - currentWidth
  if padding < 0 then
    let truncated := truncateByVisualWidth tbl text targetWidth
    let truncatedWidth := getVisualWidth tbl truncated
    let remainingPadding := targetWidth - truncatedWidth
    truncated ++ spaces (max 0 remainingPadding).toNat
  else
    match align with
    | Align.right => spaces padding.toNat ++ text
    | Align.center =>
      let leftPad := padding / 2
      spaces leftPad.toNat ++ text ++ spaces (padding - leftPad).toNat
    | Align.left => text ++ spaces padding.toNat

/-! ### Box, table, combine, frame -/

/-- JS `String.prototype.repeat`: `none` models the `RangeError` thrown on
a negative count. -/
def jsRepeat (s : JStr) (n : Int) : Option JStr :=
  if n < 0 then none else some ((List.replicate n.toNat s).flatten)

/-- `createBox` of `src/index.ts` (lines 286-299).  The top-border dash
count is guarded by `Math.max(0, _)`; the bottom border `repeat(width-2)`
is not, hence the `Option`. -/
def createBox (tbl : CorrTable) (title : JStr) (lines : List JStr) (width : Int) :
    Option JStr :=
  let innerWidth := width - 4
  let topBorder := List.replicate (max 0 (width - 2 - getVisualWidth tbl title - 3)).toNat '─'
  match jsRepeat ['─'] (width - 2) with
  | none => none
  | some bottom =>
    some ((['┌', '─', ' '] ++ title ++ [' '] ++ topBorder ++ ['┐', '\n'])
      ++ (lines.map
            (fun l => ['│', ' '] ++ padText tbl l innerWidth Align.left ++ [' ', '│', '\n'])).flatten
      ++ ['└'] ++ bottom ++ ['┘'])

/-- JS `x || d` on an optional number: `undefined` and `0` both fall back
to the default. -/
def jsOrInt (o : Option Int) (d : Int) : Int :=
  match o with
  | some v => if v = 0 then d else v
  | none => d

/-- `createTableRow` of `src/index.ts` (lines 302-307): each column padded
left-aligned to `widths[i] || 10`, joined between box-drawing bars. -/
def createTableRow (tbl : CorrTable) (columns : List JStr) (widths : List Int) : JStr :=
  let paddedCols :=
    columns.mapIdx (fun i col => padText tbl col (jsOrInt (widths.get? i) 10) Align.left)
  ['│', ' '] ++ List.intercalate [' ', '│', ' '] paddedCols ++ [' ', '│']

/-- Style argument of `createTableSeparator`. -/
inductive SepStyle
  | top
  | middle
  | bottom
deriving DecidableEq

/-- Corner and junction glyphs per separator style. -/
def sepChars : SepStyle → Char × Char × Char
  | SepStyle.top => ('┌', '┬', '┐')
  | SepStyle.middle => ('├', '┼', '┤')
  | SepStyle.bottom => ('└', '┴', '┘')

/-- `createTableSeparator` of `src/index.ts` (lines 310-322): each column
contributes a dash run of `width + 2`; `repeat` is unguarded, so a column
width below `-2` throws. -/
def createTableSeparator (widths : List Int) (style : SepStyle) : Option JStr :=
  let c := sepChars style
  match widths.mapM (fun w => jsRepeat ['─'] (w + 2)) with
  | none => none
  | some segments => some ([c.1] ++ List.intercalate [c.2.1] segments ++ [c.2.2])

/-- JS whitespace (the `trimEnd` set: WhiteSpace plus LineTerminator). -/
def isJsWhitespace (c : Char) : Bool :=
  decide (c.toNat = 9) || decide (c.toNat = 10) || decide (c.toNat = 11) ||
  decide (c.toNat = 12) || decide (c.toNat = 13) || decide (c.toNat = 32) ||
  decide (c.toNat = 0xA0) || decide (c.toNat = 0x1680) ||
  (decide (0x2000 ≤ c.toNat) && decide (c.toNat ≤ 0x200A)) ||
  decide (c.toNat = 0x2028) || decide (c.toNat = 0x2029) ||
  decide (c.toNat = 0x202F) || decide (c.toNat = 0x205F) ||
  decide (c.toNat = 0x3000) || decide (c.toNat = 0xFEFF)

/-- JS `String.prototype.trimEnd`. -/
def trimEnd (s : JStr) : JStr := (s.reverse.dropWhile isJsWhitespace).reverse

/-- Largest of a list of lengths and `0` (JS `Math.max(...xs, 0)`). -/
def jsMaxNat (l : List Nat) : Nat := l.foldr max 0

/-- Largest of a list of widths and `0` (JS `Math.max(...xs, 0)`). -/
def jsMaxInt (l : List Int) : Int := l.foldr max 0

/-- The per-box line lists of `combineHorizontal`: split on newline, each
line right-trimmed. -/
def chBoxLines (boxes : List JStr) : List (List JStr) :=
  boxes.map (fun b => (b.splitOn '\n').map trimEnd)

/-- `maxLines` of `combineHorizontal`. -/
def chMaxLines (boxes : List JStr) : Nat :=
  jsMaxNat ((chBoxLines boxes).map List.length)

/-- `boxWidths` of `combineHorizontal`: each box's own maximum trimmed
visual width. -/
def chBoxWidths (tbl : CorrTable) (boxes : List JStr) : List Int :=
  (chBoxLines boxes).map (fun ls => jsMaxInt (ls.map (getVisualWidth tbl)))

/-- Row `i` contribution of box `j` in `combineHorizontal`:
`padText(boxLines[j][i] || "", boxWidths[j], "left")`. -/
def chCell (tbl : CorrTable) (boxes : List JStr) (j i : Nat) : JStr :=
  padText tbl (((chBoxLines boxes).getD j []).getD i [])
    ((chBoxWidths tbl boxes).getD j 0) Align.left

/-- `combineHorizontal` of `src/index.ts` (lines 325-350).  The gap
`repeat` is unguarded, so a negative gap throws. -/
def combineHorizontal (tbl : CorrTable) (boxes : List JStr) (gap : Int) : Option JStr :=
  match jsRepeat [' '] gap with
  | none => none
  | some gapStr =>
    some (List.intercalate ['\n']
      ((List.range (chMaxLines boxes)).map (fun i =>
        List.intercalate gapStr
          ((List.range (chBoxLines boxes).length).map (fun j => chCell tbl boxes j i)))))

/-- `wrapFrame` of `src/index.ts` (lines 353-390): the frame grows to
`max(width, content_max_width + 4)`, so `actualWidth - 2 ≥ 2` and the
border repeats cannot throw.  A missing or empty title (JS `if (title)`)
yields the plain border. -/
def wrapFrame (tbl : CorrTable) (content : JStr) (width : Int) (title : Option JStr) : JStr :=
  let trimmedLines := (content.splitOn '\n').map trimEnd
  let maxContentWidth := jsMaxInt (trimmedLines.map (getVisualWidth tbl))
  let minRequiredWidth := maxContentWidth + 4
  let actualWidth := max width minRequiredWidth
  let innerWidth := actualWidth - 4
  let top :=
    match title with
    | some t =>
      if t = [] then ['┌'] ++ List.replicate (actualWidth - 2).toNat '─' ++ ['┐', '\n']
      else
        ['┌', '─', ' '] ++ t ++ [' ']
          ++ List.replicate (max 0 (actualWidth - 2 - getVisualWidth tbl t - 3)).toNat '─'
          ++ ['┐', '\n']
    | none => ['┌'] ++ List.replicate (actualWidth - 2).toNat '─' ++ ['┐', '\n']
  top
    ++ (trimmedLines.map
          (fun l => ['│', ' '] ++ padText tbl l innerWidth Align.left ++ [' ', '│', '\n'])).flatten
    ++ ['└'] ++ List.replicate (actualWidth - 2).toNat '─' ++ ['┘']

/-! ### Batch render evaluator -/

/-- The seven-shape tagged component variant of `src/index.ts`
(lines 396-447). -/
inductive UIComponent
  | pad_text (text : JStr) (width : Int) (align : Option Align)
  | box (title : JStr) (lines : List JStr) (width : Option Int)
  | table_row (columns : List JStr) (widths : List Int)
  | table_separator (widths : List Int) (style : Option SepStyle)
  | combine_horizontal (items : List Int) (gap : Option Int)
  | wrap_frame (contentIndex : Int) (width : Int) (title : Option JStr)
  | raw (text : JStr)

/-- `results[idx] || ""`: an out-of-range (or negative) index resolves to
the empty string. -/
def resolveRef (results : List JStr) (idx : Int) : JStr :=
  if idx < 0 then [] else results.getD idx.toNat []

/-- One arm of the `switch` in `batchRender` (lines 450-490), rendering a
component against the results produced so far. -/
def renderComp (tbl : CorrTable) (results : List JStr) : UIComponent → Option JStr
  | UIComponent.pad_text t w a => some (padText tbl t w (a.getD Align.left))
  | UIComponent.box t ls w => createBox tbl t ls (jsOrInt w 40)
  | UIComponent.table_row cs ws => some (createTableRow tbl cs ws)
  | UIComponent.table_separator ws st => createTableSeparator ws (st.getD SepStyle.middle)
  | UIComponent.combine_horizontal items gap =>
    combineHorizontal tbl (items.map (resolveRef results)) (jsOrInt gap 2)
  | UIComponent.wrap_frame ci w t => some (wrapFrame tbl (resolveRef results ci) w t)
  | UIComponent.raw t => some t

/-- The evaluation loop of `batchRender`: render each component in order,
appending to the result sequence; a thrown `RangeError` aborts the batch. -/
def batchGo (tbl : CorrTable) (results : List JStr) : List UIComponent → Option (List JStr)
  | [] => some results
  | c :: cs =>
    match renderComp tbl results c with
    | some r => batchGo tbl (results ++ [r]) cs
    | none => none

/-- `batchRender` of `src/index.ts` (lines 450-490). -/
def batchRender (tbl : CorrTable) (comps : List UIComponent) : Option (List JStr) :=
  batchGo tbl [] comps

/-- The per-column effective width of `createTableRow`, written the way
the specification describes it: a declared width that is absent or zero is
replaced by the default `10`, any other declared width is used as is. -/
def specColumnWidth (widths : List Int) (i : Nat) : Int :=
  match widths.get? i with
  | some v => if v = 0 then 10 else v
  | none => 10


theorem segment_nil : segment [] = [] := rfl

theorem segment_single (c : Char) : segment [c] = [[c]] := rfl

theorem segment_keycap (c : Char) (rest : JStr) :
    segment (c :: vs16 :: keycapMark :: rest) = [c, vs16, keycapMark] :: segment rest := by
  rw [segment.eq_3]
  simp

theorem segment_pair (c : Char) (rest : JStr) (h : rest.head? ≠ some keycapMark) :
    segment (c :: vs16 :: rest) = [c, vs16] :: segment rest := by
  cases rest with
  | nil => rfl
  | cons k r =>
    have hk : k ≠ keycapMark := by intro hh; exact h (by simp [hh])
    rw [segment.eq_3]
    simp [hk]

theorem segment_cons_ne (c f : Char) (rest : JStr) (hf : f ≠ vs16) :
    segment (c :: f :: rest) = [c] :: segment (f :: rest) := by
  cases rest with
  | nil => rw [segment.eq_def]; simp [hf]
  | cons k r => rw [segment.eq_3]; simp [hf]

theorem getVisualWidth_nil (tbl : CorrTable) : getVisualWidth tbl [] = 0 := rfl

theorem getVisualWidth_single (tbl : CorrTable) (c : Char) :
    getVisualWidth tbl [c] = singleWidth tbl c := rfl

theorem getVisualWidth_keycap (tbl : CorrTable) (c : Char) (rest : JStr) :
    getVisualWidth tbl (c :: vs16 :: keycapMark :: rest)
      = keycapWidth tbl c + getVisualWidth tbl rest := by
  rw [getVisualWidth.eq_3]
  simp

theorem getVisualWidth_pair (tbl : CorrTable) (c : Char) (rest : JStr)
    (h : rest.head? ≠ some keycapMark) :
    getVisualWidth tbl (c :: vs16 :: rest) = pairWidth tbl c + getVisualWidth tbl rest := by
  cases rest with
  | nil => rw [getVisualWidth.eq_def]; simp [getVisualWidth_nil]
  | cons k r =>
    have hk : k ≠ keycapMark := by intro hh; exact h (by simp [hh])
    rw [getVisualWidth.eq_3]
    simp [hk]

theorem getVisualWidth_cons_ne (tbl : CorrTable) (c f : Char) (rest : JStr) (hf : f ≠ vs16) :
    getVisualWidth tbl (c :: f :: rest) = singleWidth tbl c + getVisualWidth tbl (f :: rest) := by
  cases rest with
  | nil => rw [getVisualWidth.eq_def]; simp [hf]
  | cons k r => rw [getVisualWidth.eq_3]; simp [hf]

theorem segment_append (ys : JStr) (xs : JStr)
    (h2 : ys.head? = some keycapMark → xs.getLast? ≠ some vs16)
    (h1 : ys.head? ≠ some vs16) :
    segment (xs ++ ys) = segment xs ++ segment ys := by
  induction xs using segment.induct with
  | case1 => simp [segment_nil]
  | case2 c =>
    cases ys with
    | nil => simp [segment_nil]
    | cons y ys' =>
      have hy : y ≠ vs16 := by intro h; exact h1 (by simp [h])
      simp [segment_cons_ne _ _ _ hy, segment_single]
  | case3 c rest2 ih =>
    have h2' : ys.head? = some keycapMark → rest2.getLast? ≠ some vs16 := by
      intro hk
      cases rest2 with
      | nil => simp
      | cons a l => simpa [List.getLast?_cons_cons] using h2 hk
    rw [List.cons_append, List.cons_append, List.cons_append, segment_keycap, segment_keycap,
      ih h2', List.cons_append]
  | case4 c k rest2 hk ih =>
    have h2' : ys.head? = some keycapMark → (k :: rest2).getLast? ≠ some vs16 := by
      intro hkk
      simpa [List.getLast?_cons_cons] using h2 hkk
    have hkh : (k :: (rest2 ++ ys)).head? ≠ some keycapMark := by simp [hk]
    have hkh2 : (k :: rest2).head? ≠ some keycapMark := by simp [hk]
    rw [List.cons_append, List.cons_append, List.cons_append, segment_pair _ _ hkh,
      segment_pair _ _ hkh2]
    rw [List.cons_append] at ih
    rw [ih h2', List.cons_append]
  | case5 c =>
    cases ys with
    | nil => simp [segment_nil]
    | cons y ys' =>
      have hy : y ≠ keycapMark := by
        intro h
        exact (h2 (by simp [h])) (by simp)
      have hys : (y :: ys').head? ≠ some keycapMark := by simp [hy]
      have hnil : ([] : JStr).head? ≠ some keycapMark := by simp
      simp [segment_pair _ _ hys, segment_pair _ _ hnil, segment_nil]
  | case6 c f rest hf ih =>
    have h2' : ys.head? = some keycapMark → (f :: rest).getLast? ≠ some vs16 := by
      intro hkk
      simpa [List.getLast?_cons_cons] using h2 hkk
    rw [List.cons_append, List.cons_append, segment_cons_ne _ _ _ hf, segment_cons_ne _ _ _ hf]
    rw [List.cons_append] at ih
    rw [ih h2', List.cons_append]

theorem segment_flatten (s : JStr) : (segment s).flatten = s := by
  induction s using segment.induct with
  | case1 => simp [segment_nil]
  | case2 c => simp [segment_single]
  | case3 c rest2 ih => simp [segment_keycap, ih]
  | case4 c k rest2 hk ih =>
    have h : (k :: rest2).head? ≠ some keycapMark := by simp [hk]
    simp [segment_pair _ _ h, ih]
  | case5 c =>
    have hnil : ([] : JStr).head? ≠ some keycapMark := by simp
    simp [segment_pair _ _ hnil, segment_nil]
  | case6 c f rest hf ih => simp [segment_cons_ne _ _ _ hf, ih]

theorem getVisualWidth_eq_sum (tbl : CorrTable) (s : JStr) :
    getVisualWidth tbl s = ((segment s).map (clusterWidth tbl)).sum := by
  induction s using segment.induct with
  | case1 => simp [getVisualWidth_nil, segment_nil]
  | case2 c => simp [segment_single, getVisualWidth_single, clusterWidth]
  | case3 c rest2 ih => simp [segment_keycap, getVisualWidth_keycap, clusterWidth, ih]
  | case4 c k rest2 hk ih =>
    have h : (k :: rest2).head? ≠ some keycapMark := by simp [hk]
    simp [segment_pair _ _ h, getVisualWidth_pair _ _ _ h, clusterWidth, ih]
  | case5 c =>
    have hnil : ([] : JStr).head? ≠ some keycapMark := by simp
    simp [segment_pair _ _ hnil, getVisualWidth_pair _ _ _ hnil, clusterWidth,
      getVisualWidth_nil, segment_nil]
  | case6 c f rest hf ih =>
    simp [segment_cons_ne _ _ _ hf, getVisualWidth_cons_ne _ _ _ _ hf, clusterWidth, ih]


theorem getVisualWidth_append (tbl : CorrTable) (xs ys : JStr)
    (h2 : ys.head? = some keycapMark → xs.getLast? ≠ some vs16)
    (h1 : ys.head? ≠ some vs16) :
    getVisualWidth tbl (xs ++ ys) = getVisualWidth tbl xs + getVisualWidth tbl ys := by
  rw [getVisualWidth_eq_sum, getVisualWidth_eq_sum, getVisualWidth_eq_sum,
    segment_append ys xs h2 h1, List.map_append, List.sum_append]

theorem segment_replicate (n : Nat) (c : Char) (hc : c ≠ vs16) :
    segment (List.replicate n c) = List.replicate n [c] := by
  induction n with
  | zero => simp [segment_nil]
  | succ m ih =>
    cases m with
    | zero => simp [segment_single]
    | succ m' =>
      show segment (c :: c :: List.replicate m' c) = [c] :: List.replicate (m' + 1) [c]
      rw [segment_cons_ne _ _ _ hc]
      show ([c] : List Char) :: segment (List.replicate (m' + 1) c) = _
      rw [ih]

theorem getVisualWidth_replicate (tbl : CorrTable) (n : Nat) (c : Char) (hc : c ≠ vs16) :
    getVisualWidth tbl (List.replicate n c) = n * singleWidth tbl c := by
  rw [getVisualWidth_eq_sum, segment_replicate n c hc, List.map_replicate]
  simp [clusterWidth, List.sum_replicate, mul_comm]

theorem space_ne_vs16 : ' ' ≠ vs16 := by decide

theorem getVisualWidth_spaces (tbl : CorrTable) (n : Nat)
    (hsp : lookupCorr tbl [' '] = none) :
    getVisualWidth tbl (spaces n) = n := by
  rw [spaces, getVisualWidth_replicate tbl n ' ' space_ne_vs16]
  have h1 : singleWidth tbl ' ' = 1 := by
    rw [singleWidth, hsp]
    decide
  rw [h1, mul_one]

theorem spaces_head (n : Nat) : (spaces n).head? = none ∨ (spaces n).head? = some ' ' := by
  cases n with
  | zero => left; rfl
  | succ m => right; simp [spaces, List.replicate_succ]

theorem spaces_getLast (n : Nat) :
    (spaces n).getLast? = none ∨ (spaces n).getLast? = some ' ' := by
  cases n with
  | zero => left; rfl
  | succ m =>
    right
    simp [spaces]
    rw [List.getLast?_eq_getLast _ (by simp)]
    simp [List.getLast_replicate]

theorem getVisualWidth_append_spaces (tbl : CorrTable) (xs : JStr) (n : Nat)
    (hsp : lookupCorr tbl [' '] = none) :
    getVisualWidth tbl (xs ++ spaces n) = getVisualWidth tbl xs + n := by
  rw [getVisualWidth_append]
  · rw [getVisualWidth_spaces tbl n hsp]
  · intro h
    rcases spaces_head n with h' | h' <;> rw [h'] at h <;> simp at h
    exact absurd h (by decide)
  · intro h
    rcases spaces_head n with h' | h' <;> rw [h'] at h <;> simp at h
    exact absurd h (by decide)

theorem getVisualWidth_spaces_append (tbl : CorrTable) (ys : JStr) (n : Nat)
    (hsp : lookupCorr tbl [' '] = none) (hy : ys.head? ≠ some vs16) :
    getVisualWidth tbl (spaces n ++ ys) = n + getVisualWidth tbl ys := by
  rw [getVisualWidth_append]
  · rw [getVisualWidth_spaces tbl n hsp]
  · intro _
    rcases spaces_getLast n with h' | h' <;> rw [h'] <;> simp
    decide
  · exact hy


theorem wcwidthUnit_nonneg (u : Nat) : 0 ≤ wcwidthUnit u := by
  rw [wcwidthUnit]
  split
  · exact le_refl 0
  · split
    · exact le_refl 0
    · split
      · exact le_refl 0
      · split
        · decide
        · decide

theorem wcswidth_nonneg (s : JStr) : 0 ≤ wcswidth s := by
  rw [wcswidth]
  apply List.sum_nonneg
  intro x hx
  rcases List.mem_map.mp hx with ⟨u, _, hu⟩
  rw [← hu]
  exact wcwidthUnit_nonneg u

theorem lookupCorr_mem (tbl : CorrTable) (k : JStr) (v : Int)
    (h : lookupCorr tbl k = some v) : (k, v) ∈ tbl := by
  induction tbl with
  | nil => simp [lookupCorr] at h
  | cons p rest ih =>
    rw [lookupCorr] at h
    by_cases hk : p.1 = k
    · rw [if_pos hk] at h
      have hv : p.2 = v := by injection h
      have hp : p = (k, v) := by
        cases p
        simp at hk hv
        simp [hk, hv]
      rw [← hp]
      exact List.mem_cons_self _ _
    · rw [if_neg hk] at h
      exact List.mem_cons_of_mem _ (ih h)

theorem singleWidth_nonneg (tbl : CorrTable) (c : Char)
    (h : ∀ p ∈ tbl, 0 ≤ p.2) : 0 ≤ singleWidth tbl c := by
  cases hl : lookupCorr tbl [c] with
  | none =>
    have he : singleWidth tbl c = wcswidth [c] := by simp [singleWidth, hl]
    rw [he]
    exact wcswidth_nonneg _
  | some v =>
    have he : singleWidth tbl c = wcswidth [c] + v := by simp [singleWidth, hl]
    have h1 := h _ (lookupCorr_mem tbl [c] v hl)
    have h2 := wcswidth_nonneg [c]
    simp at h1
    rw [he]
    omega

theorem pairWidth_nonneg (tbl : CorrTable) (c : Char)
    (h : ∀ p ∈ tbl, 0 ≤ p.2) : 0 ≤ pairWidth tbl c := by
  have hw := wcswidth_nonneg [c, vs16]
  cases hl : lookupCorr tbl [c, vs16] with
  | none =>
    have he : pairWidth tbl c = wcswidth [c, vs16] + 1 := by simp [pairWidth, hl]
    rw [he]
    omega
  | some v =>
    have he : pairWidth tbl c = wcswidth [c, vs16] + v := by simp [pairWidth, hl]
    have h1 := h _ (lookupCorr_mem tbl [c, vs16] v hl)
    simp at h1
    rw [he]
    omega

theorem keycapWidth_nonneg (tbl : CorrTable) (c : Char)
    (h : ∀ p ∈ tbl, 0 ≤ p.2) : 0 ≤ keycapWidth tbl c := by
  have hw := wcswidth_nonneg [c, vs16, keycapMark]
  cases hl : lookupCorr tbl [c, vs16, keycapMark] with
  | none =>
    have he : keycapWidth tbl c = wcswidth [c, vs16, keycapMark] + 1 := by
      simp [keycapWidth, hl]
    rw [he]
    omega
  | some v =>
    have he : keycapWidth tbl c = wcswidth [c, vs16, keycapMark] + v := by
      simp [keycapWidth, hl]
    have h1 := h _ (lookupCorr_mem tbl [c, vs16, keycapMark] v hl)
    simp at h1
    rw [he]
    omega

theorem getVisualWidth_nonneg (tbl : CorrTable) (s : JStr)
    (h : ∀ p ∈ tbl, 0 ≤ p.2) : 0 ≤ getVisualWidth tbl s := by
  induction s using segment.induct with
  | case1 => simp [getVisualWidth_nil]
  | case2 c => rw [getVisualWidth_single]; exact singleWidth_nonneg tbl c h
  | case3 c rest2 ih =>
    rw [getVisualWidth_keycap]
    have := keycapWidth_nonneg tbl c h
    omega
  | case4 c k rest2 hk ih =>
    rw [getVisualWidth_pair _ _ _ (by simp [hk])]
    have := pairWidth_nonneg tbl c h
    omega
  | case5 c =>
    rw [getVisualWidth_pair _ _ _ (by simp)]
    have := pairWidth_nonneg tbl c h
    rw [getVisualWidth_nil]
    omega
  | case6 c f rest hf ih =>
    rw [getVisualWidth_cons_ne _ _ _ _ hf]
    have := singleWidth_nonneg tbl c h
    omega


theorem truncGo_nil (tbl : CorrTable) (m cur : Int) : truncGo tbl m [] cur = [] := rfl

theorem truncGo_sing (tbl : CorrTable) (m cur : Int) (c : Char) :
    truncGo tbl m [c] cur = if cur + singleWidth tbl c > m then [] else [c] := rfl

theorem truncGo_keycap (tbl : CorrTable) (m cur : Int) (c : Char) (rest : JStr) :
    truncGo tbl m (c :: vs16 :: keycapMark :: rest) cur =
      if cur + keycapWidth tbl c > m then []
      else c :: vs16 :: keycapMark :: truncGo tbl m rest (cur + keycapWidth tbl c) := by
  rw [truncGo.eq_3]
  simp

theorem truncGo_pair (tbl : CorrTable) (m cur : Int) (c : Char) (rest : JStr)
    (h : rest.head? ≠ some keycapMark) :
    truncGo tbl m (c :: vs16 :: rest) cur =
      if cur + pairWidth tbl c > m then []
      else c :: vs16 :: truncGo tbl m rest (cur + pairWidth tbl c) := by
  cases rest with
  | nil => rfl
  | cons k r =>
    have hk : k ≠ keycapMark := by intro hh; exact h (by simp [hh])
    rw [truncGo.eq_3]
    simp [hk]

theorem truncGo_cons_ne (tbl : CorrTable) (m cur : Int) (c f : Char) (rest : JStr)
    (hf : f ≠ vs16) :
    truncGo tbl m (c :: f :: rest) cur =
      if cur + singleWidth tbl c > m then []
      else c :: truncGo tbl m (f :: rest) (cur + singleWidth tbl c) := by
  cases rest with
  | nil => rw [truncGo.eq_def]; simp [hf]
  | cons k r => rw [truncGo.eq_3]; simp [hf]

theorem truncGo_head (tbl : CorrTable) (m : Int) (s : JStr) (cur : Int) :
    (truncGo tbl m s cur).head? = none ∨ (truncGo tbl m s cur).head? = s.head? := by
  induction s, cur using truncGo.induct tbl m with
  | case1 cur => left; rfl
  | case2 c cur h => rw [truncGo_sing, if_pos h]; left; rfl
  | case3 c cur h => rw [truncGo_sing, if_neg h]; right; rfl
  | case4 c cur rest2 h => rw [truncGo_keycap, if_pos h]; left; rfl
  | case5 c cur rest2 h ih => rw [truncGo_keycap, if_neg h]; right; rfl
  | case6 c cur k rest2 hk h =>
    rw [truncGo_pair _ _ _ _ _ (by simp [hk]), if_pos h]; left; rfl
  | case7 c cur k rest2 hk h ih =>
    rw [truncGo_pair _ _ _ _ _ (by simp [hk]), if_neg h]; right; rfl
  | case8 c cur h => rw [truncGo_pair _ _ _ _ _ (by simp), if_pos h]; left; rfl
  | case9 c cur h => rw [truncGo_pair _ _ _ _ _ (by simp), if_neg h]; right; rfl
  | case10 c f rest cur hf h =>
    rw [truncGo_cons_ne _ _ _ _ _ _ hf, if_pos h]; left; rfl
  | case11 c f rest cur hf h ih =>
    rw [truncGo_cons_ne _ _ _ _ _ _ hf, if_neg h]; right; rfl

theorem truncGo_width (tbl : CorrTable) (m : Int) (s : JStr) (cur : Int) (hcur : cur ≤ m) :
    cur + getVisualWidth tbl (truncGo tbl m s cur) ≤ m := by
  induction s, cur using truncGo.induct tbl m with
  | case1 cur => rw [truncGo_nil, getVisualWidth_nil]; omega
  | case2 c cur h => rw [truncGo_sing, if_pos h, getVisualWidth_nil]; omega
  | case3 c cur h => rw [truncGo_sing, if_neg h, getVisualWidth_single]; omega
  | case4 c cur rest2 h => rw [truncGo_keycap, if_pos h, getVisualWidth_nil]; omega
  | case5 c cur rest2 h ih =>
    rw [truncGo_keycap, if_neg h, getVisualWidth_keycap]
    have := ih (by omega)
    omega
  | case6 c cur k rest2 hk h =>
    rw [truncGo_pair _ _ _ _ _ (by simp [hk]), if_pos h, getVisualWidth_nil]; omega
  | case7 c cur k rest2 hk h ih =>
    rw [truncGo_pair _ _ _ _ _ (by simp [hk]), if_neg h]
    have hh : (truncGo tbl m (k :: rest2) (cur + pairWidth tbl c)).head? ≠ some keycapMark := by
      rcases truncGo_head tbl m (k :: rest2) (cur + pairWidth tbl c) with h' | h' <;> rw [h']
      · simp
      · simp [hk]
    rw [getVisualWidth_pair _ _ _ hh]
    have := ih (by omega)
    omega
  | case8 c cur h =>
    rw [truncGo_pair _ _ _ _ _ (by simp), if_pos h, getVisualWidth_nil]; omega
  | case9 c cur h =>
    rw [truncGo_pair _ _ _ _ _ (by simp), if_neg h, truncGo_nil,
      getVisualWidth_pair _ _ _ (by simp), getVisualWidth_nil]
    omega
  | case10 c f rest cur hf h =>
    rw [truncGo_cons_ne _ _ _ _ _ _ hf, if_pos h, getVisualWidth_nil]; omega
  | case11 c f rest cur hf h ih =>
    rw [truncGo_cons_ne _ _ _ _ _ _ hf, if_neg h]
    rcases hr : truncGo tbl m (f :: rest) (cur + singleWidth tbl c) with _ | ⟨y, t⟩
    · rw [getVisualWidth_single]
      omega
    · have hy : y ≠ vs16 := by
        rcases truncGo_head tbl m (f :: rest) (cur + singleWidth tbl c) with h' | h' <;>
          rw [hr] at h' <;> simp at h'
        rw [h']
        exact hf
      rw [getVisualWidth_cons_ne _ _ _ _ hy]
      have := ih (by omega)
      rw [hr] at this
      omega

theorem truncGo_prefix (tbl : CorrTable) (m : Int) (s : JStr) (cur : Int) :
    ∃ n, truncGo tbl m s cur = ((segment s).take n).flatten := by
  induction s, cur using truncGo.induct tbl m with
  | case1 cur => exact ⟨0, rfl⟩
  | case2 c cur h => exact ⟨0, by rw [truncGo_sing, if_pos h]; rfl⟩
  | case3 c cur h =>
    exact ⟨1, by rw [truncGo_sing, if_neg h, segment_single]; rfl⟩
  | case4 c cur rest2 h => exact ⟨0, by rw [truncGo_keycap, if_pos h]; rfl⟩
  | case5 c cur rest2 h ih =>
    rcases ih with ⟨n, hn⟩
    refine ⟨n + 1, ?_⟩
    rw [truncGo_keycap, if_neg h, segment_keycap, List.take_succ_cons, List.flatten_cons, hn]
    rfl
  | case6 c cur k rest2 hk h =>
    exact ⟨0, by rw [truncGo_pair _ _ _ _ _ (by simp [hk]), if_pos h]; rfl⟩
  | case7 c cur k rest2 hk h ih =>
    rcases ih with ⟨n, hn⟩
    refine ⟨n + 1, ?_⟩
    rw [truncGo_pair _ _ _ _ _ (by simp [hk]), if_neg h,
      segment_pair _ _ (by simp [hk]), List.take_succ_cons, List.flatten_cons, hn]
    rfl
  | case8 c cur h =>
    exact ⟨0, by rw [truncGo_pair _ _ _ _ _ (by simp), if_pos h]; rfl⟩
  | case9 c cur h =>
    refine ⟨1, ?_⟩
    rw [truncGo_pair _ _ _ _ _ (by simp), if_neg h, segment_pair _ _ (by simp), truncGo_nil]
    rfl
  | case10 c f rest cur hf h =>
    exact ⟨0, by rw [truncGo_cons_ne _ _ _ _ _ _ hf, if_pos h]; rfl⟩
  | case11 c f rest cur hf h ih =>
    rcases ih with ⟨n, hn⟩
    refine ⟨n + 1, ?_⟩
    rw [truncGo_cons_ne _ _ _ _ _ _ hf, if_neg h, segment_cons_ne _ _ _ hf,
      List.take_succ_cons, List.flatten_cons, hn]
    rfl

theorem truncate_width_le (tbl : CorrTable) (s : JStr) (m : Int) (hm : 0 ≤ m) :
    getVisualWidth tbl (truncateByVisualWidth tbl s m) ≤ m := by
  have := truncGo_width tbl m s 0 hm
  rw [truncateByVisualWidth]
  omega

theorem truncate_prefix (tbl : CorrTable) (s : JStr) (m : Int) :
    ∃ n, truncateByVisualWidth tbl s m = ((segment s).take n).flatten :=
  truncGo_prefix tbl m s 0

theorem truncate_head (tbl : CorrTable) (s : JStr) (m : Int) :
    (truncateByVisualWidth tbl s m).head? = none ∨
      (truncateByVisualWidth tbl s m).head? = s.head? :=
  truncGo_head tbl m s 0

theorem truncate_isPrefix (tbl : CorrTable) (s : JStr) (m : Int) :
    truncateByVisualWidth tbl s m <+: s := by
  rcases truncate_prefix tbl s m with ⟨n, hn⟩
  rw [hn]
  have h1 : ((segment s).take n).flatten ++ ((segment s).drop n).flatten = s := by
    rw [← List.flatten_append, List.take_append_drop, segment_flatten]
  exact ⟨((segment s).drop n).flatten, h1⟩

theorem truncate_mem (tbl : CorrTable) (s : JStr) (m : Int) (c : Char)
    (hc : c ∈ truncateByVisualWidth tbl s m) : c ∈ s :=
  (truncate_isPrefix tbl s m).subset hc


theorem padText_of_lt (tbl : CorrTable) (text : JStr) (w : Int) (a : Align)
    (h : w - getVisualWidth tbl text < 0) :
    padText tbl text w a =
      truncateByVisualWidth tbl text w ++
        spaces (max 0 (w - getVisualWidth tbl (truncateByVisualWidth tbl text w))).toNat := by
  rw [padText.eq_def]
  simp [h]

theorem padText_left_of_ge (tbl : CorrTable) (text : JStr) (w : Int)
    (h : ¬ w - getVisualWidth tbl text < 0) :
    padText tbl text w Align.left = text ++ spaces (w - getVisualWidth tbl text).toNat := by
  rw [padText.eq_def]
  simp [h]

theorem padText_right_of_ge (tbl : CorrTable) (text : JStr) (w : Int)
    (h : ¬ w - getVisualWidth tbl text < 0) :
    padText tbl text w Align.right = spaces (w - getVisualWidth tbl text).toNat ++ text := by
  rw [padText.eq_def]
  simp [h]

theorem padText_center_of_ge (tbl : CorrTable) (text : JStr) (w : Int)
    (h : ¬ w - getVisualWidth tbl text < 0) :
    padText tbl text w Align.center =
      spaces ((w - getVisualWidth tbl text) / 2).toNat ++ text ++
        spaces ((w - getVisualWidth tbl text) - (w - getVisualWidth tbl text) / 2).toNat := by
  rw [padText.eq_def]
  simp [h]

theorem padText_trunc_width (tbl : CorrTable) (text : JStr) (w : Int) (a : Align)
    (hsp : lookupCorr tbl [' '] = none) (hw : 0 ≤ w)
    (h : w - getVisualWidth tbl text < 0) :
    getVisualWidth tbl (padText tbl text w a) = w := by
  rw [padText_of_lt tbl text w a h]
  have hle := truncate_width_le tbl text w hw
  rw [getVisualWidth_append_spaces tbl _ _ hsp]
  omega

theorem padText_left_width (tbl : CorrTable) (text : JStr) (w : Int)
    (hsp : lookupCorr tbl [' '] = none) (hw : 0 ≤ w) :
    getVisualWidth tbl (padText tbl text w Align.left) = w := by
  by_cases h : w - getVisualWidth tbl text < 0
  · exact padText_trunc_width tbl text w _ hsp hw h
  · rw [padText_left_of_ge tbl text w h, getVisualWidth_append_spaces tbl _ _ hsp]
    omega

theorem padText_left_width_of_le (tbl : CorrTable) (text : JStr) (w : Int)
    (hsp : lookupCorr tbl [' '] = none) (hle : getVisualWidth tbl text ≤ w) :
    getVisualWidth tbl (padText tbl text w Align.left) = w := by
  have h : ¬ w - getVisualWidth tbl text < 0 := by omega
  rw [padText_left_of_ge tbl text w h, getVisualWidth_append_spaces tbl _ _ hsp]
  omega

theorem padText_width (tbl : CorrTable) (text : JStr) (w : Int) (a : Align)
    (hsp : lookupCorr tbl [' '] = none) (hw : 0 ≤ w)
    (ha : a = Align.left ∨ text.head? ≠ some vs16) :
    getVisualWidth tbl (padText tbl text w a) = w := by
  by_cases h : w - getVisualWidth tbl text < 0
  · exact padText_trunc_width tbl text w a hsp hw h
  · cases a with
    | left => exact padText_left_width tbl text w hsp hw
    | right =>
      have hh : text.head? ≠ some vs16 := by
        rcases ha with ha | ha
        · exact absurd ha (by simp)
        · exact ha
      rw [padText_right_of_ge tbl text w h, getVisualWidth_spaces_append tbl _ _ hsp hh]
      omega
    | center =>
      have hh : text.head? ≠ some vs16 := by
        rcases ha with ha | ha
        · exact absurd ha (by simp)
        · exact ha
      rw [padText_center_of_ge tbl text w h, List.append_assoc]
      have hh2 : (text ++ spaces ((w - getVisualWidth tbl text)
          - (w - getVisualWidth tbl text) / 2).toNat).head? ≠ some vs16 := by
        cases text with
        | nil =>
          simp only [List.nil_append]
          rcases spaces_head ((w - getVisualWidth tbl [])
              - (w - getVisualWidth tbl []) / 2).toNat with h' | h' <;> rw [h']
          · simp
          · simp
            decide
        | cons x t =>
          simpa using hh
      rw [getVisualWidth_spaces_append tbl _ _ hsp hh2,
        getVisualWidth_append_spaces tbl _ _ hsp]
      omega

theorem padText_mem (tbl : CorrTable) (text : JStr) (w : Int) (a : Align) (c : Char)
    (hc : c ∈ padText tbl text w a) : c ∈ text ∨ c = ' ' := by
  have hsp : ∀ n, c ∈ spaces n → c = ' ' := fun n h => List.eq_of_mem_replicate h
  by_cases h : w - getVisualWidth tbl text < 0
  · rw [padText_of_lt tbl text w a h] at hc
    rcases List.mem_append.mp hc with h' | h'
    · exact Or.inl (truncate_mem tbl text w c h')
    · exact Or.inr (hsp _ h')
  · cases a with
    | left =>
      rw [padText_left_of_ge tbl text w h] at hc
      rcases List.mem_append.mp hc with h' | h'
      · exact Or.inl h'
      · exact Or.inr (hsp _ h')
    | right =>
      rw [padText_right_of_ge tbl text w h] at hc
      rcases List.mem_append.mp hc with h' | h'
      · exact Or.inr (hsp _ h')
      · exact Or.inl h'
    | center =>
      rw [padText_center_of_ge tbl text w h] at hc
      rcases List.mem_append.mp hc with h' | h'
      · rcases List.mem_append.mp h' with h'' | h''
        · exact Or.inr (hsp _ h'')
        · exact Or.inl h''
      · exact Or.inr (hsp _ h')

theorem head?_append_or (xs ys : List Char) (c : Char)
    (h1 : xs.head? ≠ some c) (h2 : ys.head? ≠ some c) : (xs ++ ys).head? ≠ some c := by
  cases xs with
  | nil => simpa using h2
  | cons x t => simpa using h1

theorem spaces_head_ne_vs16 (n : Nat) : (spaces n).head? ≠ some vs16 := by
  rcases spaces_head n with h | h <;> rw [h] <;> simp
  decide

theorem padText_left_head_ne (tbl : CorrTable) (text : JStr) (w : Int)
    (h : text.head? ≠ some vs16) :
    (padText tbl text w Align.left).head? ≠ some vs16 := by
  by_cases hb : w - getVisualWidth tbl text < 0
  · rw [padText_of_lt tbl text w _ hb]
    apply head?_append_or
    · rcases truncate_head tbl text w with h' | h' <;> rw [h']
      · simp
      · exact h
    · exact spaces_head_ne_vs16 _
  · rw [padText_left_of_ge tbl text w hb]
    apply head?_append_or
    · exact h
    · exact spaces_head_ne_vs16 _


theorem truncGo_width_ne (tbl : CorrTable) (m : Int) (s : JStr) (cur : Int)
    (hne : truncGo tbl m s cur ≠ []) :
    cur + getVisualWidth tbl (truncGo tbl m s cur) ≤ m := by
  induction s, cur using truncGo.induct tbl m with
  | case1 cur => exact absurd (truncGo_nil tbl m cur) hne
  | case2 c cur h => rw [truncGo_sing, if_pos h] at hne; exact absurd rfl hne
  | case3 c cur h => rw [truncGo_sing, if_neg h, getVisualWidth_single]; omega
  | case4 c cur rest2 h => rw [truncGo_keycap, if_pos h] at hne; exact absurd rfl hne
  | case5 c cur rest2 h ih =>
    rw [truncGo_keycap, if_neg h, getVisualWidth_keycap]
    by_cases hr : truncGo tbl m rest2 (cur + keycapWidth tbl c) = []
    · rw [hr, getVisualWidth_nil]; omega
    · have := ih hr
      omega
  | case6 c cur k rest2 hk h =>
    rw [truncGo_pair _ _ _ _ _ (by simp [hk]), if_pos h] at hne; exact absurd rfl hne
  | case7 c cur k rest2 hk h ih =>
    rw [truncGo_pair _ _ _ _ _ (by simp [hk]), if_neg h]
    have hh : (truncGo tbl m (k :: rest2) (cur + pairWidth tbl c)).head? ≠ some keycapMark := by
      rcases truncGo_head tbl m (k :: rest2) (cur + pairWidth tbl c) with h' | h' <;> rw [h']
      · simp
      · simp [hk]
    rw [getVisualWidth_pair _ _ _ hh]
    by_cases hr : truncGo tbl m (k :: rest2) (cur + pairWidth tbl c) = []
    · rw [hr, getVisualWidth_nil]; omega
    · have := ih hr
      omega
  | case8 c cur h =>
    rw [truncGo_pair _ _ _ _ _ (by simp), if_pos h] at hne; exact absurd rfl hne
  | case9 c cur h =>
    rw [truncGo_pair _ _ _ _ _ (by simp), if_neg h, truncGo_nil,
      getVisualWidth_pair _ _ _ (by simp), getVisualWidth_nil]
    omega
  | case10 c f rest cur hf h =>
    rw [truncGo_cons_ne _ _ _ _ _ _ hf, if_pos h] at hne; exact absurd rfl hne
  | case11 c f rest cur hf h ih =>
    rw [truncGo_cons_ne _ _ _ _ _ _ hf, if_neg h]
    rcases hr : truncGo tbl m (f :: rest) (cur + singleWidth tbl c) with _ | ⟨y, t⟩
    · rw [getVisualWidth_single]
      omega
    · have hy : y ≠ vs16 := by
        rcases truncGo_head tbl m (f :: rest) (cur + singleWidth tbl c) with h' | h' <;>
          rw [hr] at h' <;> simp at h'
        rw [h']
        exact hf
      rw [getVisualWidth_cons_ne _ _ _ _ hy]
      have := ih (by rw [hr]; simp)
      rw [hr] at this
      omega

theorem padText_left_idem (tbl : CorrTable) (s : JStr) (w : Int)
    (hsp : lookupCorr tbl [' '] = none) :
    padText tbl (padText tbl s w Align.left) w Align.left = padText tbl s w Align.left := by
  by_cases h : w - getVisualWidth tbl s < 0
  · set r := padText tbl s w Align.left with hr
    rcases htr : truncateByVisualWidth tbl s w with _ | ⟨y, t⟩
    · have hrv : r = spaces (max 0 w).toNat := by
        rw [hr, padText_of_lt tbl s w _ h, htr, getVisualWidth_nil]
        simp
      have hmax : (max 0 w).toNat = w.toNat := by omega
      by_cases hw : 0 ≤ w
      · have hwr : getVisualWidth tbl r = w := by
          rw [hrv, getVisualWidth_spaces tbl _ hsp]
          omega
        have h2 : ¬ w - getVisualWidth tbl r < 0 := by omega
        rw [padText_left_of_ge tbl r w h2, hwr]
        simp [spaces]
      · have hrnil : r = [] := by
          rw [hrv]
          have : (max 0 w).toNat = 0 := by omega
          rw [this]
          rfl
        have hwr : getVisualWidth tbl r = 0 := by rw [hrnil]; rfl
        have h2 : w - getVisualWidth tbl r < 0 := by omega
        rw [padText_of_lt tbl r w _ h2, hrnil]
        have : truncateByVisualWidth tbl [] w = [] := rfl
        rw [this, getVisualWidth_nil]
        have hmax0 : (max 0 (w - 0)).toNat = 0 := by omega
        rw [hmax0]
        rfl
    · have htg : truncGo tbl w s 0 = y :: t := htr
      have hwt : getVisualWidth tbl (truncateByVisualWidth tbl s w) ≤ w := by
        have h0 := truncGo_width_ne tbl w s 0 (by rw [htg]; simp)
        show getVisualWidth tbl (truncGo tbl w s 0) ≤ w
        omega
      have hwr : getVisualWidth tbl (padText tbl s w Align.left) = w := by
        rw [padText_of_lt tbl s w _ h, getVisualWidth_append_spaces tbl _ _ hsp]
        omega
      have h2 : ¬ w - getVisualWidth tbl (padText tbl s w Align.left) < 0 := by omega
      rw [padText_left_of_ge tbl _ w h2, hwr]
      simp [spaces]
  · have hwr : getVisualWidth tbl (padText tbl s w Align.left) = w := by
      rw [padText_left_of_ge tbl s w h, getVisualWidth_append_spaces tbl _ _ hsp]
      omega
    have h2 : ¬ w - getVisualWidth tbl (padText tbl s w Align.left) < 0 := by omega
    rw [padText_left_of_ge tbl _ w h2, hwr]
    simp [spaces]


/-- C1 counterexample: the claimed invariant fails at `padText("️", 1, right)`.
The single pad space merges with the leading U+FE0F into one corrected
two-code-point cluster, so the result has visual width 2, not 1. -/
theorem C1_counterexample :
    getVisualWidth DEFAULT_EMOJI_CORRECTIONS
        (padText DEFAULT_EMOJI_CORRECTIONS [vs16] 1 Align.right) = 2 ∧ (2 : Int) ≠ 1 := by
  constructor
  · decide
  · decide

/-- C1 (amended): for any table without a correction for the space character,
any target width `w ≥ 0` and any alignment, `width(pad(text, w, align)) = w`,
provided the alignment is `left` or the text does not begin with U+FE0F. -/
theorem C1_theorem (tbl : CorrTable) (text : JStr) (w : Int) (align : Align)
    (hsp : lookupCorr tbl [' '] = none) (hw : 0 ≤ w)
    (ha : align = Align.left ∨ text.head? ≠ some vs16) :
    getVisualWidth tbl (padText tbl text w align) = w :=
  padText_width tbl text w align hsp hw ha

theorem C1_witness :
    getVisualWidth DEFAULT_EMOJI_CORRECTIONS
      (padText DEFAULT_EMOJI_CORRECTIONS ['a', 'b'] 7 Align.center) = 7 :=
  C1_theorem DEFAULT_EMOJI_CORRECTIONS ['a', 'b'] 7 Align.center (by decide) (by decide)
    (Or.inr (by decide))

/-- C2 counterexample: with a loaded table carrying a negative correction,
`getVisualWidth` returns a negative number; no clamping happens. -/
theorem C2_counterexample : getVisualWidth [(['a'], -5)] ['a'] = -4 ∧ (-4 : Int) < 0 := by
  constructor
  · decide
  · decide

/-- C2 (amended): `getVisualWidth` never clamps; it is nonnegative for every
string whenever every correction in the loaded table is nonnegative (as in
the built-in default table). -/
theorem C2_theorem (tbl : CorrTable) (s : JStr) (h : ∀ p ∈ tbl, 0 ≤ p.2) :
    0 ≤ getVisualWidth tbl s :=
  getVisualWidth_nonneg tbl s h

theorem C2_witness : 0 ≤ getVisualWidth DEFAULT_EMOJI_CORRECTIONS ['a', vs16, 'b'] :=
  C2_theorem DEFAULT_EMOJI_CORRECTIONS ['a', vs16, 'b'] (by decide)

/-- C4 counterexample: for the negative max width `-1` the truncation of `"a"`
is the empty string, whose visual width `0` exceeds `-1`, so the bound
`width(truncate(s, w)) ≤ w` fails for that integer width. -/
theorem C4_counterexample :
    ¬ getVisualWidth DEFAULT_EMOJI_CORRECTIONS
        (truncateByVisualWidth DEFAULT_EMOJI_CORRECTIONS ['a'] (-1)) ≤ -1 := by
  decide

/-- C4 (amended): for every table, string and `w ≥ 0`, the truncation has
visual width at most `w` and is the concatenation of an initial run of whole
grapheme clusters of `s` (no two- or three-code-point cluster is split). -/
theorem C4_theorem (tbl : CorrTable) (s : JStr) (w : Int) (hw : 0 ≤ w) :
    getVisualWidth tbl (truncateByVisualWidth tbl s w) ≤ w ∧
      ∃ n, truncateByVisualWidth tbl s w = ((segment s).take n).flatten :=
  ⟨truncate_width_le tbl s w hw, truncate_prefix tbl s w⟩

theorem C4_witness :
    getVisualWidth DEFAULT_EMOJI_CORRECTIONS
        (truncateByVisualWidth DEFAULT_EMOJI_CORRECTIONS ['a', 'b', 'c'] 2) ≤ 2 ∧
      ∃ n, truncateByVisualWidth DEFAULT_EMOJI_CORRECTIONS ['a', 'b', 'c'] 2 =
        ((segment ['a', 'b', 'c']).take n).flatten :=
  C4_theorem DEFAULT_EMOJI_CORRECTIONS ['a', 'b', 'c'] 2 (by decide)

/-- C5: the keycap string digit-1 + U+FE0F + U+20E3 segments as exactly one
cluster, and its visual width under the default table is the base width
plus 1. -/
theorem C5_theorem :
    segment ['1', vs16, keycapMark] = [['1', vs16, keycapMark]] ∧
      getVisualWidth DEFAULT_EMOJI_CORRECTIONS ['1', vs16, keycapMark] =
        wcswidth ['1', vs16, keycapMark] + 1 := by
  constructor
  · decide
  · decide

/-- C7 counterexample: a lone U+FE0F at the start of the string, immediately
followed by another U+FE0F, is not kept as a single-code-point cluster: it
consumes the following character into a two-code-point cluster. -/
theorem C7_counterexample :
    segment [vs16, vs16] = [[vs16, vs16]] ∧
      segment [vs16, vs16] ≠ [[vs16], [vs16]] ∧
      getVisualWidth DEFAULT_EMOJI_CORRECTIONS [vs16, vs16] = 1 := by
  refine ⟨by decide, by decide, by decide⟩

/-- C7 (amended): a lone U+FE0F or U+20E3 whose following code point is not
U+FE0F is segmented as an ordinary single-code-point cluster and consumes
nothing; the width model is total, so malformed input is never fatal. -/
theorem C7_theorem (rest : JStr) (h : rest.head? ≠ some vs16) :
    segment (vs16 :: rest) = [vs16] :: segment rest ∧
      segment (keycapMark :: rest) = [keycapMark] :: segment rest := by
  cases rest with
  | nil => exact ⟨segment_single vs16, segment_single keycapMark⟩
  | cons y t =>
    have hy : y ≠ vs16 := by intro hh; exact h (by simp [hh])
    exact ⟨segment_cons_ne _ _ _ hy, segment_cons_ne _ _ _ hy⟩

theorem C7_witness :
    segment (vs16 :: ['a']) = [vs16] :: segment ['a'] ∧
      segment (keycapMark :: ['a']) = [keycapMark] :: segment ['a'] :=
  C7_theorem ['a'] (by decide)

/-- C9: left-aligned padding is idempotent, for every string and every
integer width, for any table with no correction for the space character
(the built-in default in particular). -/
theorem C9_theorem (tbl : CorrTable) (s : JStr) (w : Int)
    (hsp : lookupCorr tbl [' '] = none) :
    padText tbl (padText tbl s w Align.left) w Align.left = padText tbl s w Align.left :=
  padText_left_idem tbl s w hsp

theorem C9_witness :
    padText DEFAULT_EMOJI_CORRECTIONS
        (padText DEFAULT_EMOJI_CORRECTIONS ['h', 'i'] 5 Align.left) 5 Align.left =
      padText DEFAULT_EMOJI_CORRECTIONS ['h', 'i'] 5 Align.left :=
  C9_theorem DEFAULT_EMOJI_CORRECTIONS ['h', 'i'] 5 (by decide)


theorem replicate_head (n : Nat) (c : Char) :
    (List.replicate n c).head? = none ∨ (List.replicate n c).head? = some c := by
  cases n with
  | zero => left; rfl
  | succ m => right; simp [List.replicate_succ]

theorem flatten_replicate_singleton (n : Nat) (c : Char) :
    (List.replicate n ([c] : List Char)).flatten = List.replicate n c := by
  induction n with
  | zero => rfl
  | succ m ih => simp [List.replicate_succ, ih]

theorem width_append_ne (tbl : CorrTable) (xs ys : JStr)
    (h1 : ys.head? ≠ some vs16) (h2 : ys.head? ≠ some keycapMark) :
    getVisualWidth tbl (xs ++ ys) = getVisualWidth tbl xs + getVisualWidth tbl ys :=
  getVisualWidth_append tbl xs ys (fun hk => absurd hk h2) h1

theorem width_append_last (tbl : CorrTable) (xs ys : JStr)
    (h1 : ys.head? ≠ some vs16) (h2 : xs.getLast? ≠ some vs16) :
    getVisualWidth tbl (xs ++ ys) = getVisualWidth tbl xs + getVisualWidth tbl ys :=
  getVisualWidth_append tbl xs ys (fun _ => h2) h1

theorem splitOn_newline_append (a b : JStr) (ha : '\n' ∉ a) :
    (a ++ '\n' :: b).splitOn '\n' = a :: b.splitOn '\n' := by
  rw [List.splitOn, List.splitOn]
  refine List.splitOnP_first _ a ?_ '\n' (by simp) b
  intro x hx
  simp only [beq_iff_eq]
  intro he
  exact ha (he ▸ hx)

theorem splitOn_no_newline (a : JStr) (ha : '\n' ∉ a) : a.splitOn '\n' = [a] := by
  rw [List.splitOn]
  refine List.splitOnP_eq_single _ _ ?_
  intro x hx
  simp only [beq_iff_eq]
  intro he
  exact ha (he ▸ hx)


theorem box_row_width (l : JStr) (iw : Int) (hiw : 0 ≤ iw) (hlh : l.head? ≠ some vs16) :
    getVisualWidth DEFAULT_EMOJI_CORRECTIONS
      (['│', ' '] ++ padText DEFAULT_EMOJI_CORRECTIONS l iw Align.left ++ [' ', '│'])
      = iw + 4 := by
  have hpw := padText_left_width DEFAULT_EMOJI_CORRECTIONS l iw (by decide) hiw
  have hph := padText_left_head_ne DEFAULT_EMOJI_CORRECTIONS l iw hlh
  simp only [List.append_assoc]
  rw [width_append_last DEFAULT_EMOJI_CORRECTIONS ['│', ' '] _
    (head?_append_or _ _ _ hph (by decide)) (by decide)]
  rw [width_append_ne DEFAULT_EMOJI_CORRECTIONS _ [' ', '│'] (by decide) (by decide)]
  rw [hpw]
  have h1 : getVisualWidth DEFAULT_EMOJI_CORRECTIONS ['│', ' '] = 2 := by decide
  have h2 : getVisualWidth DEFAULT_EMOJI_CORRECTIONS [' ', '│'] = 2 := by decide
  rw [h1, h2]
  omega

theorem box_top_width (title : JStr) (w : Int) (ht : title.head? ≠ some vs16)
    (hw : getVisualWidth DEFAULT_EMOJI_CORRECTIONS title + 5 ≤ w) :
    getVisualWidth DEFAULT_EMOJI_CORRECTIONS
      (['┌', '─', ' '] ++ title ++ [' ']
        ++ List.replicate
            (max 0 (w - 2 - getVisualWidth DEFAULT_EMOJI_CORRECTIONS title - 3)).toNat '─'
        ++ ['┐']) = w := by
  have hwt0 : 0 ≤ getVisualWidth DEFAULT_EMOJI_CORRECTIONS title :=
    getVisualWidth_nonneg _ _ (by decide)
  set wt := getVisualWidth DEFAULT_EMOJI_CORRECTIONS title with hwt
  set n := (max 0 (w - 2 - wt - 3)).toNat with hn
  have hd : (List.replicate n '─').head? ≠ some vs16 ∧
      (List.replicate n '─').head? ≠ some keycapMark := by
    rcases replicate_head n '─' with h' | h' <;> rw [h'] <;> constructor <;> simp <;> decide
  have hdk : ((List.replicate n '─' ++ ['┐']).head? ≠ some vs16) ∧
      ((List.replicate n '─' ++ ['┐']).head? ≠ some keycapMark) :=
    ⟨head?_append_or _ _ _ hd.1 (by decide), head?_append_or _ _ _ hd.2 (by decide)⟩
  have hsA : ((' ' :: (List.replicate n '─' ++ ['┐'])) : JStr).head? ≠ some vs16 := by
    simp
    decide
  have hA : (title ++ ([' '] ++ (List.replicate n '─' ++ ['┐']))).head? ≠ some vs16 := by
    apply head?_append_or _ _ _ ht
    simpa using hsA
  simp only [List.append_assoc]
  rw [width_append_last DEFAULT_EMOJI_CORRECTIONS ['┌', '─', ' '] _ hA (by decide)]
  rw [width_append_ne DEFAULT_EMOJI_CORRECTIONS title _ (by simpa using hsA)
    (by simp; decide)]
  rw [width_append_ne DEFAULT_EMOJI_CORRECTIONS [' '] _ hdk.1 hdk.2]
  rw [width_append_ne DEFAULT_EMOJI_CORRECTIONS _ ['┐'] (by decide) (by decide)]
  rw [getVisualWidth_replicate DEFAULT_EMOJI_CORRECTIONS n '─' (by decide)]
  have h1 : getVisualWidth DEFAULT_EMOJI_CORRECTIONS ['┌', '─', ' '] = 3 := by decide
  have h2 : getVisualWidth DEFAULT_EMOJI_CORRECTIONS [' '] = 1 := by decide
  have h3 : getVisualWidth DEFAULT_EMOJI_CORRECTIONS ['┐'] = 1 := by decide
  have h4 : singleWidth DEFAULT_EMOJI_CORRECTIONS '─' = 1 := by decide
  rw [h1, h2, h3, h4]
  have hnn : (n : Int) = w - 5 - wt := by omega
  omega

theorem box_bottom_width (w : Int) (hw : 2 ≤ w) :
    getVisualWidth DEFAULT_EMOJI_CORRECTIONS
      (['└'] ++ List.replicate (w - 2).toNat '─' ++ ['┘']) = w := by
  set n := (w - 2).toNat with hn
  have hd : (List.replicate n '─').head? ≠ some vs16 ∧
      (List.replicate n '─').head? ≠ some keycapMark := by
    rcases replicate_head n '─' with h' | h' <;> rw [h'] <;> constructor <;> simp <;> decide
  have hdk : ((List.replicate n '─' ++ ['┘']).head? ≠ some vs16) ∧
      ((List.replicate n '─' ++ ['┘']).head? ≠ some keycapMark) :=
    ⟨head?_append_or _ _ _ hd.1 (by decide), head?_append_or _ _ _ hd.2 (by decide)⟩
  simp only [List.append_assoc]
  rw [width_append_ne DEFAULT_EMOJI_CORRECTIONS ['└'] _ hdk.1 hdk.2]
  rw [width_append_ne DEFAULT_EMOJI_CORRECTIONS _ ['┘'] (by decide) (by decide)]
  rw [getVisualWidth_replicate DEFAULT_EMOJI_CORRECTIONS n '─' (by decide)]
  have h1 : getVisualWidth DEFAULT_EMOJI_CORRECTIONS ['└'] = 1 := by decide
  have h3 : getVisualWidth DEFAULT_EMOJI_CORRECTIONS ['┘'] = 1 := by decide
  have h4 : singleWidth DEFAULT_EMOJI_CORRECTIONS '─' = 1 := by decide
  rw [h1, h3, h4]
  have hnn : (n : Int) = w - 2 := by omega
  omega


theorem box_core_no_newline (tbl : CorrTable) (l : JStr) (iw : Int) (hln : '\n' ∉ l) :
    '\n' ∉ ['│', ' '] ++ padText tbl l iw Align.left ++ [' ', '│'] := by
  intro hmem
  simp only [List.append_assoc, List.mem_append] at hmem
  rcases hmem with h | h | h
  · simp at h
  · rcases padText_mem tbl l iw Align.left '\n' h with h' | h'
    · exact hln h'
    · simp at h'
  · simp at h

theorem box_body_split (tbl : CorrTable) (lines : List JStr) (iw : Int) (B : JStr)
    (hB : '\n' ∉ B) (hl : ∀ l ∈ lines, '\n' ∉ l) :
    ((lines.map
        (fun l => ['│', ' '] ++ padText tbl l iw Align.left ++ [' ', '│', '\n'])).flatten
      ++ B).splitOn '\n'
      = (lines.map (fun l => ['│', ' '] ++ padText tbl l iw Align.left ++ [' ', '│'])) ++ [B] := by
  induction lines with
  | nil => simpa using splitOn_no_newline B hB
  | cons l ls ih =>
    have hcore := box_core_no_newline tbl l iw (hl l (by simp))
    have e : (['│', ' '] ++ padText tbl l iw Align.left ++ [' ', '│', '\n'])
        ++ ((ls.map
            (fun x => ['│', ' '] ++ padText tbl x iw Align.left ++ [' ', '│', '\n'])).flatten
          ++ B)
        = (['│', ' '] ++ padText tbl l iw Align.left ++ [' ', '│'])
          ++ '\n' :: ((ls.map
              (fun x => ['│', ' '] ++ padText tbl x iw Align.left ++ [' ', '│', '\n'])).flatten
            ++ B) := by
      simp
    rw [List.map_cons, List.flatten_cons, List.append_assoc, e,
      splitOn_newline_append _ _ hcore, ih (fun x hx => hl x (by simp [hx]))]
    simp


/-- C6 counterexample: a box whose title alone exceeds the dash budget has a
top border wider than its bottom border (13 columns versus 10): the rows of
`createBox("12345678", [], 10)` do not all share one visual width.  The dash
count still floors at 0 rather than going negative. -/
theorem C6_counterexample :
    (createBox DEFAULT_EMOJI_CORRECTIONS ['1', '2', '3', '4', '5', '6', '7', '8'] [] 10).map
        (fun s => (s.splitOn '\n').map (getVisualWidth DEFAULT_EMOJI_CORRECTIONS))
      = some [13, 10] ∧ (13 : Int) ≠ 10 := by
  refine ⟨by decide, by decide⟩

/-- C6 (amended): whenever the requested width leaves the title a nonnegative
dash budget (`width(title) + 5 ≤ width`), and neither the title nor any
content line begins with U+FE0F or contains a newline, every row of the
rendered box (top border, each content row, bottom border) has visual width
exactly `width`; the top-border dash count floors at 0 by construction. -/
theorem C6_theorem (title : JStr) (lines : List JStr) (w : Int)
    (ht : title.head? ≠ some vs16) (htn : '\n' ∉ title)
    (hl : ∀ l ∈ lines, l.head? ≠ some vs16 ∧ '\n' ∉ l)
    (hw : getVisualWidth DEFAULT_EMOJI_CORRECTIONS title + 5 ≤ w) :
    ∃ s, createBox DEFAULT_EMOJI_CORRECTIONS title lines w = some s ∧
      ∀ r ∈ s.splitOn '\n', getVisualWidth DEFAULT_EMOJI_CORRECTIONS r = w := by
  have hwt0 : 0 ≤ getVisualWidth DEFAULT_EMOJI_CORRECTIONS title :=
    getVisualWidth_nonneg _ _ (by decide)
  have hw5 : 5 ≤ w := by omega
  have hrep : jsRepeat ['─'] (w - 2) = some (List.replicate (w - 2).toNat '─') := by
    rw [jsRepeat, if_neg (by omega)]
    rw [flatten_replicate_singleton]
  set tb := List.replicate
      (max 0 (w - 2 - getVisualWidth DEFAULT_EMOJI_CORRECTIONS title - 3)).toNat '─' with htb
  set bt := List.replicate (w - 2).toNat '─' with hbt
  set FR := (lines.map
      (fun l => ['│', ' '] ++ padText DEFAULT_EMOJI_CORRECTIONS l (w - 4) Align.left
        ++ [' ', '│', '\n'])).flatten with hFR
  have hs : createBox DEFAULT_EMOJI_CORRECTIONS title lines w =
      some ((['┌', '─', ' '] ++ title ++ [' '] ++ tb ++ ['┐', '\n']) ++ FR
        ++ ['└'] ++ bt ++ ['┘']) := by
    rw [createBox.eq_def, hrep]
  refine ⟨_, hs, ?_⟩
  have e1 : (['┌', '─', ' '] ++ title ++ [' '] ++ tb ++ ['┐', '\n']) ++ FR
      ++ ['└'] ++ bt ++ ['┘']
      = (['┌', '─', ' '] ++ title ++ [' '] ++ tb ++ ['┐'])
        ++ '\n' :: (FR ++ (['└'] ++ bt ++ ['┘'])) := by
    simp
  have htopn : '\n' ∉ ['┌', '─', ' '] ++ title ++ [' '] ++ tb ++ ['┐'] := by
    intro hmem
    simp only [List.append_assoc, List.mem_append] at hmem
    rcases hmem with h | h | h | h | h
    · simp at h
    · exact htn h
    · simp at h
    · rw [htb] at h
      have := List.eq_of_mem_replicate h
      simp at this
    · simp at h
  have hbotn : '\n' ∉ ['└'] ++ bt ++ ['┘'] := by
    intro hmem
    simp only [List.append_assoc, List.mem_append] at hmem
    rcases hmem with h | h | h
    · simp at h
    · rw [hbt] at h
      have := List.eq_of_mem_replicate h
      simp at this
    · simp at h
  rw [e1, splitOn_newline_append _ _ htopn, hFR,
    box_body_split DEFAULT_EMOJI_CORRECTIONS lines (w - 4) _ hbotn (fun l hx => (hl l hx).2)]
  intro r hr
  rcases List.mem_cons.mp hr with hr | hr
  · rw [hr]
    exact box_top_width title w ht hw
  · rcases List.mem_append.mp hr with hr | hr
    · rcases List.mem_map.mp hr with ⟨l, hlmem, hle⟩
      rw [← hle]
      have := box_row_width l (w - 4) (by omega) (hl l hlmem).1
      omega
    · rcases List.mem_singleton.mp hr with rfl
      exact box_bottom_width w (by omega)


theorem le_jsMaxNat (l : List Nat) (a : Nat) (ha : a ∈ l) : a ≤ jsMaxNat l := by
  induction l with
  | nil => simp at ha
  | cons x t ih =>
    rcases List.mem_cons.mp ha with rfl | ha'
    · exact le_max_left _ _
    · exact le_trans (ih ha') (le_max_right _ _)

theorem le_jsMaxInt (l : List Int) (a : Int) (ha : a ∈ l) : a ≤ jsMaxInt l := by
  induction l with
  | nil => simp at ha
  | cons x t ih =>
    rcases List.mem_cons.mp ha with rfl | ha'
    · exact le_max_left _ _
    · exact le_trans (ih ha') (le_max_right _ _)

theorem jsMaxInt_nonneg (l : List Int) : 0 ≤ jsMaxInt l := by
  induction l with
  | nil => exact le_refl 0
  | cons x t ih => exact le_trans ih (le_max_right _ _)

theorem mem_intersperse (sep : JStr) (ls : List JStr) (x : JStr)
    (hx : x ∈ List.intersperse sep ls) : x ∈ ls ∨ x = sep := by
  induction ls with
  | nil => simp [List.intersperse] at hx
  | cons a t ih =>
    cases t with
    | nil =>
      simp [List.intersperse] at hx
      exact Or.inl (by simp [hx])
    | cons b t2 =>
      rw [List.intersperse_cons_cons] at hx
      rcases List.mem_cons.mp hx with rfl | hx'
      · exact Or.inl (by simp)
      · rcases List.mem_cons.mp hx' with rfl | hx'' <;>
          [exact Or.inr rfl;
           rcases ih hx'' with h | h <;> [exact Or.inl (List.mem_cons_of_mem _ h); exact Or.inr h]]

theorem not_mem_intercalate (sep : JStr) (ls : List JStr) (c : Char)
    (hsep : c ∉ sep) (h : ∀ l ∈ ls, c ∉ l) : c ∉ List.intercalate sep ls := by
  intro hc
  rw [List.intercalate] at hc
  rcases List.mem_flatten.mp hc with ⟨l, hl, hcl⟩
  rcases mem_intersperse sep ls l hl with h' | rfl
  · exact h l h' hcl
  · exact hsep hcl

theorem trimEnd_subset (s : JStr) (c : Char) (hc : c ∈ trimEnd s) : c ∈ s := by
  rw [trimEnd] at hc
  rw [List.mem_reverse] at hc
  have := (List.dropWhile_sublist _).subset hc
  rwa [List.mem_reverse] at this

theorem not_mem_splitOnP_pieces (a : Char) (xs : List Char) :
    ∀ p ∈ xs.splitOnP (fun x => x == a), a ∉ p := by
  induction xs with
  | nil =>
    intro p hp
    rw [List.splitOnP_nil] at hp
    rcases List.mem_singleton.mp hp with rfl
    simp
  | cons x t ih =>
    intro p hp
    rw [List.splitOnP_cons] at hp
    by_cases hx : x = a
    · rw [if_pos (by simp [hx])] at hp
      rcases List.mem_cons.mp hp with rfl | hp'
      · simp
      · exact ih p hp'
    · rw [if_neg (by simp [hx])] at hp
      rcases he : List.splitOnP (fun x => x == a) t with _ | ⟨h0, t0⟩
      · exact absurd he (List.splitOnP_ne_nil _ t)
      · rw [he] at hp
        rw [List.modifyHead] at hp
        rcases List.mem_cons.mp hp with rfl | hp'
        · intro hmem
          rcases List.mem_cons.mp hmem with rfl | hmem'
          · exact hx rfl
          · exact ih h0 (by rw [he]; simp) hmem'
        · exact ih p (by rw [he]; exact List.mem_cons_of_mem _ hp')

theorem not_mem_splitOn_pieces (a : Char) (xs : List Char) (p : List Char)
    (hp : p ∈ xs.splitOn a) : a ∉ p := by
  have he : xs.splitOn a = xs.splitOnP (fun x => x == a) := rfl
  rw [he] at hp
  exact not_mem_splitOnP_pieces a xs p hp


theorem chBoxLines_length (boxes : List JStr) : (chBoxLines boxes).length = boxes.length := by
  rw [chBoxLines, List.length_map]

theorem chBoxWidths_length (tbl : CorrTable) (boxes : List JStr) :
    (chBoxWidths tbl boxes).length = boxes.length := by
  rw [chBoxWidths, List.length_map, chBoxLines_length]

theorem chBoxWidths_getD (tbl : CorrTable) (boxes : List JStr) (j : Nat)
    (hj : j < boxes.length) :
    (chBoxWidths tbl boxes).getD j 0 =
      jsMaxInt ((((chBoxLines boxes).getD j []).map (getVisualWidth tbl))) := by
  have hj1 : j < (chBoxLines boxes).length := by rw [chBoxLines_length]; exact hj
  have hj2 : j < (chBoxWidths tbl boxes).length := by rw [chBoxWidths_length]; exact hj
  rw [List.getD_eq_getElem _ _ hj2, List.getD_eq_getElem _ _ hj1]
  simp only [chBoxWidths, List.getElem_map]

theorem chCell_width (tbl : CorrTable) (boxes : List JStr) (j i : Nat)
    (hsp : lookupCorr tbl [' '] = none) (hj : j < boxes.length) :
    getVisualWidth tbl (chCell tbl boxes j i) = (chBoxWidths tbl boxes).getD j 0 := by
  rw [chCell]
  apply padText_left_width_of_le tbl _ _ hsp
  rw [chBoxWidths_getD tbl boxes j hj]
  set ls := (chBoxLines boxes).getD j [] with hls
  by_cases hi : i < ls.length
  · rw [List.getD_eq_getElem _ _ hi]
    apply le_jsMaxInt
    exact List.mem_map.mpr ⟨ls[i], List.getElem_mem hi, rfl⟩
  · rw [List.getD_eq_default _ _ (by omega)]
    rw [getVisualWidth_nil]
    exact jsMaxInt_nonneg _

theorem chBoxWidths_getD_nonneg (tbl : CorrTable) (boxes : List JStr) (j : Nat) :
    0 ≤ (chBoxWidths tbl boxes).getD j 0 := by
  by_cases hj : j < boxes.length
  · rw [chBoxWidths_getD tbl boxes j hj]
    exact jsMaxInt_nonneg _
  · rw [List.getD_eq_default]
    rw [chBoxWidths_length]
    omega

theorem chCell_blank (tbl : CorrTable) (boxes : List JStr) (j i : Nat)
    (hi : ((chBoxLines boxes).getD j []).length ≤ i) :
    chCell tbl boxes j i =
      List.replicate ((chBoxWidths tbl boxes).getD j 0).toNat ' ' := by
  rw [chCell, List.getD_eq_default _ _ hi]
  have hW := chBoxWidths_getD_nonneg tbl boxes j
  rw [padText_left_of_ge tbl [] _ (by rw [getVisualWidth_nil]; omega)]
  rw [getVisualWidth_nil, List.nil_append, sub_zero]
  rfl

theorem chBoxLines_getD_mem (boxes : List JStr) (j : Nat) (l : JStr)
    (hl : l ∈ (chBoxLines boxes).getD j []) :
    ∃ b piece, b ∈ boxes ∧ piece ∈ b.splitOn '\n' ∧ l = trimEnd piece := by
  by_cases hj : j < (chBoxLines boxes).length
  · have hmem : (chBoxLines boxes).getD j [] ∈ chBoxLines boxes := by
      rw [List.getD_eq_getElem _ _ hj]
      exact List.getElem_mem hj
    rw [chBoxLines] at hmem
    rcases List.mem_map.mp hmem with ⟨b, hb, hbe⟩
    rw [chBoxLines] at hl
    rw [← hbe] at hl
    rcases List.mem_map.mp hl with ⟨piece, hpiece, hpe⟩
    exact ⟨b, piece, hb, hpiece, hpe.symm⟩
  · rw [List.getD_eq_default _ _ (by omega)] at hl
    simp at hl

theorem chCell_no_newline (tbl : CorrTable) (boxes : List JStr) (j i : Nat) :
    '\n' ∉ chCell tbl boxes j i := by
  intro hmem
  rcases padText_mem tbl _ _ _ _ hmem with h | h
  · set ls := (chBoxLines boxes).getD j [] with hls
    by_cases hi : i < ls.length
    · have hlmem : ls.getD i [] ∈ ls := by
        rw [List.getD_eq_getElem _ _ hi]
        exact List.getElem_mem hi
      rcases chBoxLines_getD_mem boxes j _ hlmem with ⟨b, piece, _, hpiece, hpe⟩
      rw [hpe] at h
      exact not_mem_splitOn_pieces '\n' _ piece hpiece (trimEnd_subset piece '\n' h)
    · rw [List.getD_eq_default _ _ (by omega)] at h
      simp at h
  · simp at h


/-- C8 counterexample: a negative gap makes `combineHorizontal` throw
(`" ".repeat(gap)` raises a `RangeError`), so for gap `-1` no combined
result is produced at all, refuting the claim for every gap. -/
theorem C8_counterexample : combineHorizontal DEFAULT_EMOJI_CORRECTIONS [['a']] (-1) = none := by
  decide

/-- C8 (amended): for every nonempty block list and nonnegative gap, the
combination succeeds; its line count is the maximum block line count; every
cell contributed by block `j` has that block's own maximum trimmed visual
width; and every missing row of a shorter block contributes a fully
space-padded blank of that width. -/
theorem C8_theorem (boxes : List JStr) (gap : Int) (hg : 0 ≤ gap) (hne : boxes ≠ []) :
    ∃ s, combineHorizontal DEFAULT_EMOJI_CORRECTIONS boxes gap = some s ∧
      (s.splitOn '\n').length = jsMaxNat (boxes.map (fun b => (b.splitOn '\n').length)) ∧
      (∀ j, j < boxes.length → ∀ i,
        getVisualWidth DEFAULT_EMOJI_CORRECTIONS (chCell DEFAULT_EMOJI_CORRECTIONS boxes j i)
          = (chBoxWidths DEFAULT_EMOJI_CORRECTIONS boxes).getD j 0) ∧
      (∀ j i, ((chBoxLines boxes).getD j []).length ≤ i →
        chCell DEFAULT_EMOJI_CORRECTIONS boxes j i
          = List.replicate
              ((chBoxWidths DEFAULT_EMOJI_CORRECTIONS boxes).getD j 0).toNat ' ') := by
  have hrep : jsRepeat [' '] gap = some (List.replicate gap.toNat ' ') := by
    rw [jsRepeat, if_neg (by omega), flatten_replicate_singleton]
  set rows := (List.range (chMaxLines boxes)).map
    (fun i => List.intercalate (List.replicate gap.toNat ' ')
      ((List.range (chBoxLines boxes).length).map
        (fun j => chCell DEFAULT_EMOJI_CORRECTIONS boxes j i))) with hrows
  have hs : combineHorizontal DEFAULT_EMOJI_CORRECTIONS boxes gap =
      some (List.intercalate ['\n'] rows) := by
    rw [combineHorizontal.eq_def, hrep, hrows]
  have hml : 1 ≤ chMaxLines boxes := by
    rcases List.exists_cons_of_ne_nil hne with ⟨b, bs, rfl⟩
    have hmem : ((b.splitOn '\n').map trimEnd).length ∈ (chBoxLines (b :: bs)).map List.length := by
      rw [chBoxLines]
      simp
    have hle := le_jsMaxNat _ _ hmem
    have hpos : 0 < ((b.splitOn '\n').map trimEnd).length := by
      rw [List.length_map]
      exact List.length_pos.mpr (by
        have he : b.splitOn '\n' = b.splitOnP (fun x => x == '\n') := rfl
        rw [he]
        exact List.splitOnP_ne_nil _ b)
    rw [chMaxLines]
    omega
  have hrowsne : rows ≠ [] := by
    rw [hrows]
    intro hcon
    have := congrArg List.length hcon
    simp at this
    omega
  have hrownl : ∀ r ∈ rows, '\n' ∉ r := by
    intro r hr
    rw [hrows] at hr
    rcases List.mem_map.mp hr with ⟨i, _, hie⟩
    rw [← hie]
    apply not_mem_intercalate
    · intro hmem
      have := List.eq_of_mem_replicate hmem
      simp at this
    · intro l hl
      rcases List.mem_map.mp hl with ⟨j, _, hje⟩
      rw [← hje]
      exact chCell_no_newline _ boxes j i
  have hsplit : (List.intercalate ['\n'] rows).splitOn '\n' = rows :=
    List.splitOn_intercalate rows '\n' hrownl hrowsne
  refine ⟨_, hs, ?_, ?_, ?_⟩
  · rw [hsplit, hrows, List.length_map, List.length_range, chMaxLines, chBoxLines,
      List.map_map]
    congr 1
    apply List.map_congr_left
    intro b _
    simp
  · intro j hj i
    exact chCell_width DEFAULT_EMOJI_CORRECTIONS boxes j i (by decide) hj
  · intro j i hi
    exact chCell_blank DEFAULT_EMOJI_CORRECTIONS boxes j i hi

theorem C8_witness :
    ∃ s, combineHorizontal DEFAULT_EMOJI_CORRECTIONS [['a'], ['b', '\n', 'c', 'c']] 2 = some s ∧
      (s.splitOn '\n').length =
        jsMaxNat ([['a'], ['b', '\n', 'c', 'c']].map (fun b => (b.splitOn '\n').length)) ∧
      (∀ j, j < ([['a'], ['b', '\n', 'c', 'c']] : List JStr).length → ∀ i,
        getVisualWidth DEFAULT_EMOJI_CORRECTIONS
            (chCell DEFAULT_EMOJI_CORRECTIONS [['a'], ['b', '\n', 'c', 'c']] j i)
          = (chBoxWidths DEFAULT_EMOJI_CORRECTIONS [['a'], ['b', '\n', 'c', 'c']]).getD j 0) ∧
      (∀ j i, ((chBoxLines [['a'], ['b', '\n', 'c', 'c']]).getD j []).length ≤ i →
        chCell DEFAULT_EMOJI_CORRECTIONS [['a'], ['b', '\n', 'c', 'c']] j i
          = List.replicate
              ((chBoxWidths DEFAULT_EMOJI_CORRECTIONS
                [['a'], ['b', '\n', 'c', 'c']]).getD j 0).toNat ' ') :=
  C8_theorem [['a'], ['b', '\n', 'c', 'c']] 2 (by decide) (by decide)


theorem C6_witness :
    ∃ s, createBox DEFAULT_EMOJI_CORRECTIONS ['T'] [['h', 'i']] 10 = some s ∧
      ∀ r ∈ s.splitOn '\n', getVisualWidth DEFAULT_EMOJI_CORRECTIONS r = 10 :=
  C6_theorem ['T'] [['h', 'i']] 10 (by decide) (by decide) (by decide) (by decide)

theorem batchGo_sound (tbl : CorrTable) (cs : List UIComponent) :
    ∀ (acc rs : List JStr), batchGo tbl acc cs = some rs →
      rs.length = acc.length + cs.length ∧
      rs.take acc.length = acc ∧
      ∀ i comp, cs[i]? = some comp → ∃ r,
        renderComp tbl (rs.take (acc.length + i)) comp = some r ∧
        rs[acc.length + i]? = some r := by
  induction cs with
  | nil =>
    intro acc rs h
    rw [batchGo] at h
    cases h
    refine ⟨by simp, by simp, ?_⟩
    intro i comp hcomp
    simp at hcomp
  | cons c cs ih =>
    intro acc rs h
    rw [batchGo] at h
    rcases hr : renderComp tbl acc c with _ | r
    · rw [hr] at h; cases h
    · rw [hr] at h
      rcases ih (acc ++ [r]) rs h with ⟨hlen, htake, hidx⟩
      have hlen' : rs.length = acc.length + (c :: cs).length := by
        simp at hlen
        simp
        omega
      have htake' : rs.take acc.length = acc := by
        have h1 : rs.take acc.length = (rs.take (acc ++ [r]).length).take acc.length := by
          rw [List.take_take]
          congr 1
          simp
        rw [h1, htake, List.take_left]
      refine ⟨hlen', htake', ?_⟩
      intro i comp hcomp
      cases i with
      | zero =>
        refine ⟨r, ?_, ?_⟩
        · simp at hcomp
          rw [Nat.add_zero, htake', ← hcomp]
          exact hr
        · have h2 : rs.take (acc ++ [r]).length = acc ++ [r] := htake
          have h3 : (rs.take (acc ++ [r]).length)[acc.length]? = rs[acc.length]? := by
            rw [List.getElem?_take]
            rw [if_pos (by simp)]
          rw [h2] at h3
          rw [Nat.add_zero, ← h3]
          simp
      | succ i' =>
        have hcomp' : cs[i']? = some comp := by simpa using hcomp
        rcases hidx i' comp hcomp' with ⟨r', hrender, hget⟩
        refine ⟨r', ?_, ?_⟩
        · have he : (acc ++ [r]).length + i' = acc.length + (i' + 1) := by simp; omega
          rw [he] at hrender
          exact hrender
        · have he : (acc ++ [r]).length + i' = acc.length + (i' + 1) := by simp; omega
          rw [he] at hget
          exact hget


/-- C3 counterexample: a batch containing only a `box` instruction of width 1
throws (the bottom-border `repeat(width - 2)` gets a negative count), so no
result sequence is produced and the full-length guarantee fails for that
instruction list. -/
theorem C3_counterexample :
    batchRender DEFAULT_EMOJI_CORRECTIONS [UIComponent.box [] [] (some 1)] = none := by
  decide

/-- C3 (amended): whenever the batch completes without a thrown
`RangeError`, it returns one result per instruction, no instruction skipped;
a `combine_horizontal` item index or `wrap_frame` content index outside the
bounds of the results produced so far contributes the empty string to that
element. -/
theorem C3_theorem (tbl : CorrTable) (comps : List UIComponent) (rs : List JStr)
    (h : batchRender tbl comps = some rs) :
    rs.length = comps.length ∧
    (∀ (i : Nat) items gap, comps[i]? = some (UIComponent.combine_horizontal items gap) →
      (∀ x ∈ items, x < 0 ∨ (i : Int) ≤ x) →
      combineHorizontal tbl (items.map (fun _ => ([] : JStr))) (jsOrInt gap 2) = rs[i]?) ∧
    (∀ (i : Nat) ci w t, comps[i]? = some (UIComponent.wrap_frame ci w t) →
      (ci < 0 ∨ (i : Int) ≤ ci) →
      rs[i]? = some (wrapFrame tbl [] w t)) := by
  rcases batchGo_sound tbl comps [] rs h with ⟨hlen, _, hidx⟩
  have hlen' : rs.length = comps.length := by simpa using hlen
  have hresolve : ∀ (i : Nat) (x : Int), i < comps.length → (x < 0 ∨ (i : Int) ≤ x) →
      resolveRef (rs.take i) x = [] := by
    intro i x hi hx
    rcases hx with hx | hx
    · rw [resolveRef, if_pos hx]
    · rw [resolveRef, if_neg (by omega)]
      apply List.getD_eq_default
      rw [List.length_take]
      have : i ≤ x.toNat := by omega
      omega
  refine ⟨hlen', ?_, ?_⟩
  · intro i items gap hcomp hout
    rcases hidx i _ hcomp with ⟨r, hrender, hget⟩
    simp only [List.length_nil, Nat.zero_add] at hrender hget
    rw [renderComp] at hrender
    have hi : i < comps.length := by
      rcases List.getElem?_eq_some.mp hcomp with ⟨hh, _⟩
      exact hh
    have hmap : items.map (resolveRef (rs.take i)) = items.map (fun _ => ([] : JStr)) :=
      List.map_congr_left (fun x hx => hresolve i x hi (hout x hx))
    rw [hmap] at hrender
    rw [hrender, hget]
  · intro i ci w t hcomp hout
    rcases hidx i _ hcomp with ⟨r, hrender, hget⟩
    simp only [List.length_nil, Nat.zero_add] at hrender hget
    rw [renderComp] at hrender
    have hi : i < comps.length := by
      rcases List.getElem?_eq_some.mp hcomp with ⟨hh, _⟩
      exact hh
    rw [hresolve i ci hi hout] at hrender
    rw [hget, ← Option.some_inj.mp hrender]

theorem C3_witness :
    ([['a'], [' ', ' ']] : List JStr).length =
        ([UIComponent.raw ['a'], UIComponent.combine_horizontal [5, -1] none]).length ∧
      (∀ (i : Nat) items gap,
        ([UIComponent.raw ['a'],
          UIComponent.combine_horizontal [5, -1] none])[i]? =
            some (UIComponent.combine_horizontal items gap) →
        (∀ x ∈ items, x < 0 ∨ (i : Int) ≤ x) →
        combineHorizontal DEFAULT_EMOJI_CORRECTIONS (items.map (fun _ => ([] : JStr)))
            (jsOrInt gap 2) = ([['a'], [' ', ' ']] : List JStr)[i]?) ∧
      (∀ (i : Nat) ci w t,
        ([UIComponent.raw ['a'],
          UIComponent.combine_horizontal [5, -1] none])[i]? =
            some (UIComponent.wrap_frame ci w t) →
        (ci < 0 ∨ (i : Int) ≤ ci) →
        ([['a'], [' ', ' ']] : List JStr)[i]? =
          some (wrapFrame DEFAULT_EMOJI_CORRECTIONS [] w t)) :=
  C3_theorem DEFAULT_EMOJI_CORRECTIONS
    [UIComponent.raw ['a'], UIComponent.combine_horizontal [5, -1] none]
    [['a'], [' ', ' ']] (by decide)

/-- C10: each column of a table row is padded left-aligned to its declared
width, except that an absent or zero declared width is replaced by the
default 10; the padded columns are joined with bar separators and flanking
spaces exactly as the row grammar describes. -/
theorem C10_theorem (tbl : CorrTable) (cols : List JStr) (widths : List Int) :
    ∃ padded, createTableRow tbl cols widths
        = ['│', ' '] ++ List.intercalate [' ', '│', ' '] padded ++ [' ', '│'] ∧
      padded.length = cols.length ∧
      ∀ (i : Nat) col, cols[i]? = some col → ∃ wi,
        padded[i]? = some (padText tbl col wi Align.left) ∧
        ((widths[i]? = none ∨ widths[i]? = some 0) → wi = 10) ∧
        (∀ v, widths[i]? = some v → v ≠ 0 → wi = v) := by
  refine ⟨cols.mapIdx (fun i col => padText tbl col (jsOrInt (widths.get? i) 10) Align.left),
    rfl, List.length_mapIdx, ?_⟩
  intro i col hcol
  refine ⟨jsOrInt (widths.get? i) 10, ?_, ?_, ?_⟩
  · rw [List.getElem?_mapIdx, hcol]
    rfl
  · intro hcase
    rw [jsOrInt.eq_def, List.get?_eq_getElem?]
    rcases hcase with hc | hc <;> rw [hc]
    simp
  · intro v hv hvne
    rw [jsOrInt.eq_def, List.get?_eq_getElem?, hv]
    simp [hvne]

theorem C10_witness :
    ∃ padded, createTableRow DEFAULT_EMOJI_CORRECTIONS [['a'], ['b'], ['c']] [4, 0]
        = ['│', ' '] ++ List.intercalate [' ', '│', ' '] padded ++ [' ', '│'] ∧
      padded.length = ([['a'], ['b'], ['c']] : List JStr).length ∧
      ∀ (i : Nat) col, ([['a'], ['b'], ['c']] : List JStr)[i]? = some col → ∃ wi,
        padded[i]? = some (padText DEFAULT_EMOJI_CORRECTIONS col wi Align.left) ∧
        ((([4, 0] : List Int)[i]? = none ∨ ([4, 0] : List Int)[i]? = some 0) → wi = 10) ∧
        (∀ v, ([4, 0] : List Int)[i]? = some v → v ≠ 0 → wi = v) :=
  C10_theorem DEFAULT_EMOJI_CORRECTIONS [['a'], ['b'], ['c']] [4, 0]

end UIProto
